import Mathlib

/-!
# USB host shield address pool (`address.h`)

A shallow embedding of `AddressPoolImpl<MAX_DEVICES_ALLOWED>` and of the
bit-packed `UsbDeviceAddress`, followed by theorems about allocation, lookup,
freeing and counting.

Conventions of the embedding

* `uint8_t` values are natural numbers; arithmetic that can wrap is written
  with an explicit `% 256`.
* `thePool` is a list whose length is the template parameter
  `MAX_DEVICES_ALLOWED`; a pointer `thePool + i` is the index `i`.
* `epinfo` is a pointer; `EpInfoPtr.dev0ep` is `&dev0ep`, every other target
  is an array owned by the enumeration code.
* A local variable declared without an initialiser has an indeterminate
  value; it is passed in as an argument (`raw`).
* `FreeAddressByIndex` is recursive and its `for` loop has no counter, so
  both take a step budget and return `none` when the budget is used up.
-/

namespace UsbHost

/-- Endpoint information structure (`EP_RECORD`, lines 10-19). -/
structure EP_RECORD where
  epAddr : Nat
  Attr : Nat
  MaxPktSize : Nat
  Interval : Nat
  sndToggle : Nat
  rcvToggle : Nat
deriving DecidableEq, Repr

/-- Target of the `epinfo` pointer of a pool entry: the shared record
`dev0ep` of the pool, or a record array installed by the enumeration code. -/
inductive EpInfoPtr where
  | dev0ep : EpInfoPtr
  | other : Nat → EpInfoPtr
deriving DecidableEq, Repr

/-- One pool entry (`struct UsbDevice`, lines 49-54). -/
structure UsbDevice where
  epinfo : EpInfoPtr
  address : Nat
  devclass : Nat
deriving DecidableEq, Repr

/-! ## `UsbDeviceAddress`: the bit fields of the address byte (lines 30-47) -/

/-- Field `bmAddress : 3`, bits 0-2 of `devAddress`. -/
def bmAddress (devAddress : Nat) : Nat := devAddress % 8

/-- Field `bmParent : 3`, bits 3-5 of `devAddress`. -/
def bmParent (devAddress : Nat) : Nat := devAddress / 8 % 8

/-- Field `bmHub : 1`, bit 6 of `devAddress`. -/
def bmHub (devAddress : Nat) : Nat := devAddress / 64 % 2

/-- Field `bmReserved : 1`, bit 7 of `devAddress`. -/
def bmReserved (devAddress : Nat) : Nat := devAddress / 128 % 2

/-- The byte `devAddress` that overlays the four bit fields; a value stored
in a field is truncated to the width of the field. -/
def devAddress (address parent hub reserved : Nat) : Nat :=
  address % 8 + 8 * (parent % 8) + 64 * (hub % 2) + 128 * (reserved % 2)

/-- Assignment `addr.bmAddress = v`: the other three fields keep their bits. -/
def setBmAddress (b v : Nat) : Nat := devAddress v (bmParent b) (bmHub b) (bmReserved b)

/-- Assignment `addr.bmParent = v`. -/
def setBmParent (b v : Nat) : Nat := devAddress (bmAddress b) v (bmHub b) (bmReserved b)

/-- Assignment `addr.bmHub = v`. -/
def setBmHub (b v : Nat) : Nat := devAddress (bmAddress b) (bmParent b) v (bmReserved b)

/-- Mask `bmUSB_DEV_ADDR_ADDRESS` (line 45). -/
def bmUSB_DEV_ADDR_ADDRESS : Nat := 0x07

/-- Mask `bmUSB_DEV_ADDR_PARENT` (line 46). -/
def bmUSB_DEV_ADDR_PARENT : Nat := 0x38

/-- Mask `bmUSB_DEV_ADDR_HUB` (line 47). -/
def bmUSB_DEV_ADDR_HUB : Nat := 0x40

/-! ## `AddressPoolImpl`: the data members (lines 71-76) -/

/-- The state of an `AddressPoolImpl<MAX_DEVICES_ALLOWED>` object. -/
structure AddressPoolImpl where
  dev0ep : EP_RECORD
  hubCounter : Nat
  thePool : List UsbDevice
deriving DecidableEq, Repr

/-- The template parameter: the number of entries of `thePool`. -/
def MAX_DEVICES_ALLOWED (p : AddressPoolImpl) : Nat := p.thePool.length

/-- The entry written by `InitEntry`: address 0, class 0, `epinfo = &dev0ep`. -/
def freeEntry : UsbDevice := ⟨EpInfoPtr.dev0ep, 0, 0⟩

/-- Read of `thePool[i]`. -/
def entryAt (p : AddressPoolImpl) (i : Nat) : UsbDevice := p.thePool.getD i freeEntry

/-- Read of `thePool[i].address`. -/
def addrAt (p : AddressPoolImpl) (i : Nat) : Nat := (entryAt p i).address

/-- Write `thePool[i].address = a`; the other two fields of the entry stay. -/
def setAddrAt (p : AddressPoolImpl) (i a : Nat) : AddressPoolImpl :=
  { p with thePool := p.thePool.set i { entryAt p i with address := a } }

/-- A pool state of the class: between 1 and 255 entries, every `uint8_t`
member below 256, and the reserved entry 0 with address 0. -/
def Valid (p : AddressPoolImpl) : Prop :=
  1 ≤ MAX_DEVICES_ALLOWED p ∧ MAX_DEVICES_ALLOWED p ≤ 255 ∧ p.hubCounter < 256 ∧
    (∀ d ∈ p.thePool, d.address < 256 ∧ d.devclass < 256) ∧ addrAt p 0 = 0

instance (p : AddressPoolImpl) : Decidable (Valid p) := by
  unfold Valid; infer_instance

/-! ## Private member functions -/

/-- `InitEntry` (lines 79-84). -/
def InitEntry (p : AddressPoolImpl) (index : Nat) : AddressPoolImpl :=
  { p with thePool := p.thePool.set index freeEntry }

/-- A loop `for (i = start; i < start + n; i++) if (test i) return i;` followed
by `return 0;`. -/
def firstIndex (test : Nat → Bool) : Nat → Nat → Nat
  | _, 0 => 0
  | i, n + 1 => if test i then i else firstIndex test (i + 1) n

/-- `FindAddressIndex` (lines 86-94). -/
def FindAddressIndex (p : AddressPoolImpl) (address : Nat) : Nat :=
  firstIndex (fun i => decide (addrAt p i = address)) 1 (MAX_DEVICES_ALLOWED p - 1)

/-- `FindChildIndex` (lines 96-104): `addr` is the address byte of the parent. -/
def FindChildIndex (p : AddressPoolImpl) (addr : Nat) (start : Nat) : Nat :=
  let first := if start < 1 ∨ start ≥ MAX_DEVICES_ALLOWED p then 1 else start
  firstIndex (fun i => decide (bmParent (addrAt p i) = bmAddress addr)) first
    (MAX_DEVICES_ALLOWED p - first)

/-- The loop of `FreeAddressByIndex` (lines 115-116),
`for (uint8_t i = 1; i = FindChildIndex(thePool[index].address, i); ) FreeAddressByIndex(i);`
entered with the loop variable equal to `i`. `self` is the recursive call;
the parent address is read again from `thePool[index]` on every round. -/
def freeChildren (self : AddressPoolImpl → Nat → Option AddressPoolImpl) :
    Nat → AddressPoolImpl → Nat → Nat → Option AddressPoolImpl
  | 0, _, _, _ => none
  | fuel + 1, p, index, i =>
    let next := FindChildIndex p (addrAt p index) i
    if next = 0 then some p
    else
      match self p next with
      | none => none
      | some q => freeChildren self fuel q index next

/-- The statement `if (hubCounter == bmAddress) hubCounter--;` (lines 119-120). -/
def decHubCounter (p : AddressPoolImpl) (index : Nat) : AddressPoolImpl :=
  if p.hubCounter = bmAddress (addrAt p index) then
    { p with hubCounter := (p.hubCounter + 255) % 256 }
  else p

/-- `FreeAddressByIndex` (lines 106-123). -/
def FreeAddressByIndex : Nat → AddressPoolImpl → Nat → Option AddressPoolImpl
  | 0, _, _ => none
  | fuel + 1, p, index =>
    if index = 0 then some p
    else if bmHub (addrAt p index) = 1 then
      match freeChildren (FreeAddressByIndex fuel) fuel p index 1 with
      | none => none
      | some q => some (InitEntry (decHubCounter q index) index)
    else some (InitEntry p index)

/-- `InitAllAddresses` (lines 125-131). -/
def InitAllAddresses (p : AddressPoolImpl) : AddressPoolImpl :=
  { (List.range' 1 (MAX_DEVICES_ALLOWED p - 1)).foldl InitEntry p with hubCounter := 0 }

/-! ## Public member functions -/

/-- The constructor (lines 134-147), run on the storage `mem` of the object.
`sndtog0` and `rcvtog0` are `bmSNDTOG0` and `bmRCVTOG0` of `max3421e.h`. -/
def construct (sndtog0 rcvtog0 : Nat) (mem : AddressPoolImpl) : AddressPoolImpl :=
  let p := { mem with hubCounter := 0 }
  let p := InitEntry p 0
  let p := setAddrAt p 0 0
  let p := { p with thePool := p.thePool.set 0 { entryAt p 0 with epinfo := EpInfoPtr.dev0ep } }
  let p := { p with dev0ep := { p.dev0ep with epAddr := 0 } }
  let p := { p with dev0ep := { p.dev0ep with MaxPktSize := 8 } }
  let p := { p with dev0ep := { p.dev0ep with sndToggle := sndtog0 } }
  let p := { p with dev0ep := { p.dev0ep with rcvToggle := rcvtog0 } }
  InitAllAddresses p

/-- `GetUsbDevicePtr` (lines 149-157): `some i` is the pointer `thePool + i`,
`none` is `NULL`. -/
def GetUsbDevicePtr (p : AddressPoolImpl) (addr : Nat) : Option Nat :=
  if addr = 0 then some 0
  else
    let index := FindAddressIndex p addr
    if index = 0 then none else some index

/-- `AllocAddress` (lines 170-206): the returned byte and the new state.
`raw` is the content of the local `addr` at its declaration (line 189), which
has no initialiser. The debug print of line 178 is left out. -/
def AllocAddress (p : AddressPoolImpl) (parent : Nat) (is_hub : Bool) (port : Nat)
    (raw : Nat) : Nat × AddressPoolImpl :=
  if parent > 127 ∨ port > 7 then (0, p)
  else
    let index := FindAddressIndex p 0
    if index = 0 then (0, p)
    else if parent = 0 then
      let p := setAddrAt p index (if is_hub then 0x41 else 1)
      (addrAt p index, p)
    else
      let addr := setBmParent raw (bmAddress parent)
      if is_hub then
        let addr := setBmHub addr 1
        let p := { p with hubCounter := (p.hubCounter + 1) % 256 }
        let addr := setBmAddress addr p.hubCounter
        let p := setAddrAt p index addr
        (addrAt p index, p)
      else
        let addr := setBmHub addr 0
        let addr := setBmAddress addr port
        let p := setAddrAt p index addr
        (addrAt p index, p)

/-- `FreeAddress` (lines 208-218). -/
def FreeAddress (fuel : Nat) (p : AddressPoolImpl) (addr : Nat) : Option AddressPoolImpl :=
  if addr = 0x41 then some (InitAllAddresses p)
  else FreeAddressByIndex fuel p (FindAddressIndex p addr)

/-- `GetNumHubs` (lines 221-224). -/
def GetNumHubs (p : AddressPoolImpl) : Nat := p.hubCounter

/-- `GetNumDevices` (lines 225-234). The `if` of line 230 ends in a semicolon,
so its controlled statement is empty and the loop leaves `counter` alone;
`counter ++` of line 231 follows the loop and runs once. -/
def GetNumDevices (p : AddressPoolImpl) : Nat :=
  let counter := 0
  let counter := (List.range' 1 (MAX_DEVICES_ALLOWED p - 1)).foldl
    (fun c i => if addrAt p i ≠ 0 then c else c) counter
  (counter + 1) % 256

/-- `ForEachUsbDevice` (lines 160-168). `pfunc` is `none` for a null pointer.
A visitor is handed the raw pointer `thePool + i`, through which it can reach
every entry of the table, so a call `pfunc(thePool + i)` made in state `q` is
`f i q`, the state the visitor leaves behind. The test of line 166 reads the
table as the earlier calls left it. The result is the list of the indices the
visitor was called with, in call order, and the state after the last call. -/
def ForEachUsbDevice (p : AddressPoolImpl)
    (pfunc : Option (Nat → AddressPoolImpl → AddressPoolImpl)) :
    List Nat × AddressPoolImpl :=
  match pfunc with
  | none => ([], p)
  | some f =>
    (List.range' 1 (MAX_DEVICES_ALLOWED p - 1)).foldl
      (fun st i => if addrAt st.2 i ≠ 0 then (st.1 ++ [i], f i st.2) else st)
      ([], p)

/-! ## Auxiliary definitions for the statements -/

/-- A pool of `n` entries whose storage has not been initialised yet. -/
def rawPool (n : Nat) : AddressPoolImpl :=
  ⟨⟨0, 0, 0, 0, 0, 0⟩, 0, List.replicate n ⟨EpInfoPtr.other 0, 0xFF, 0xFF⟩⟩

/-- The byte that `AllocAddress` writes and returns once the range guard is
passed and the scan has found a free entry. -/
def allocByte (p : AddressPoolImpl) (parent : Nat) (is_hub : Bool) (port raw : Nat) : Nat :=
  if parent = 0 then (if is_hub then 0x41 else 1)
  else if is_hub then devAddress ((p.hubCounter + 1) % 256) (bmAddress parent) 1 (bmReserved raw)
  else devAddress port (bmAddress parent) 0 (bmReserved raw)

/-- How a state `q` reached inside a cascade of `FreeAddressByIndex` relates
to the state `p` it started from: the table keeps its size, an entry keeps
its address or has address 0, and for every entry from index 1 on that held a
hub address in `p` and has address 0 in `q`, no entry from index 1 on holds in
`q` a non-zero address whose parent field is the local address of that hub. -/
def Cascaded (p q : AddressPoolImpl) : Prop :=
  MAX_DEVICES_ALLOWED q = MAX_DEVICES_ALLOWED p ∧
    (∀ j, addrAt q j = addrAt p j ∨ addrAt q j = 0) ∧
    ∀ j, 1 ≤ j → bmHub (addrAt p j) = 1 → addrAt q j = 0 →
      ∀ s, 1 ≤ s → addrAt q s ≠ 0 → bmParent (addrAt q s) ≠ bmAddress (addrAt p j)

/-- A table whose hub entries form a forest, measured by `rank`: a hub entry
has a non-zero local address, and an entry in use whose parent field is the
local address of a hub entry has a smaller rank than that hub entry. -/
def Forest (rank : Nat → Nat) (p : AddressPoolImpl) : Prop :=
  (∀ t, 1 ≤ t → bmHub (addrAt p t) = 1 → bmAddress (addrAt p t) ≠ 0) ∧
    ∀ s t, 1 ≤ s → 1 ≤ t → addrAt p s ≠ 0 → bmHub (addrAt p t) = 1 →
      bmParent (addrAt p s) = bmAddress (addrAt p t) → rank s < rank t

/-- The number of entries from index 1 on whose address has the hub flag set. -/
def attachedHubs (p : AddressPoolImpl) : Nat :=
  ((List.range' 1 (MAX_DEVICES_ALLOWED p - 1)).filter
    (fun i => decide (bmHub (addrAt p i) = 1))).length

/-! ## Call sequences and scenarios -/

/-- The arguments of one `AllocAddress` call, with the indeterminate content
`raw` of its local `addr`. -/
structure Request where
  parent : Nat
  is_hub : Bool
  port : Nat
  raw : Nat
deriving DecidableEq, Repr

/-- A run of `AllocAddress` calls: the returned bytes in call order and the
final state. -/
def allocSeq (p : AddressPoolImpl) : List Request → List Nat × AddressPoolImpl
  | [] => ([], p)
  | r :: rs =>
    let a := AllocAddress p r.parent r.is_hub r.port r.raw
    let t := allocSeq a.2 rs
    (a.1 :: t.1, t.2)

/-- A request inside the range guard that is a root attach, a hub request or
a request with a port from 1 on. -/
def Request.accepted (r : Request) : Prop :=
  r.parent ≤ 127 ∧ r.port ≤ 7 ∧ (r.parent = 0 ∨ r.is_hub = true ∨ 1 ≤ r.port)

instance (r : Request) : Decidable r.accepted := by
  unfold Request.accepted; infer_instance

/-- The states reachable from a constructed pool by `AllocAddress` and
`FreeAddress` calls with `uint8_t` arguments. -/
inductive Reachable : AddressPoolImpl → Prop where
  | construct (sndtog0 rcvtog0 : Nat) (mem : AddressPoolImpl)
      (h1 : 1 ≤ MAX_DEVICES_ALLOWED mem) (h2 : MAX_DEVICES_ALLOWED mem ≤ 255) :
      Reachable (construct sndtog0 rcvtog0 mem)
  | alloc (p : AddressPoolImpl) (parent : Nat) (is_hub : Bool) (port raw : Nat)
      (hp : Reachable p) (h1 : parent < 256) (h2 : port < 256) (h3 : raw < 256) :
      Reachable (AllocAddress p parent is_hub port raw).2
  | free (fuel : Nat) (p q : AddressPoolImpl) (addr : Nat)
      (hp : Reachable p) (h1 : addr < 256) (h2 : FreeAddress fuel p addr = some q) :
      Reachable q

/-- A pool of `n` entries right after its constructor has run. -/
def freshPool (n : Nat) : AddressPoolImpl := construct 0x40 0x10 (rawPool n)

/-- Three entries; the root hub was attached (`AllocAddress(0, true)` gave
0x41) and then a hub below it (`AllocAddress(0x41, true)` gave 0x49). -/
def hubBelowRootHub : AddressPoolImpl :=
  (allocSeq (freshPool 3) [⟨0, true, 0, 0⟩, ⟨0x41, true, 0, 0⟩]).2

/-- Two entries; one device was attached to the root (`AllocAddress(0, false)`
gave 1). -/
def oneRootDevice : AddressPoolImpl :=
  (allocSeq (freshPool 2) [⟨0, false, 0, 0⟩]).2

/-- Three entries; the root hub was attached and nothing else. -/
def rootHubOnly : AddressPoolImpl :=
  (allocSeq (freshPool 3) [⟨0, true, 0, 0⟩]).2

/-- Seven entries: the root hub 0x41; below it the hub 0x4A (local address
2) and the device 0x0A (port 2); below 0x4A the device 0x11 (port 1) and the
hub 0x53 (local address 3); below 0x53 the device 0x19 (port 1). -/
def nestedHubs : AddressPoolImpl :=
  ⟨⟨0, 0, 8, 0, 0x40, 0x10⟩, 3,
    [freeEntry, ⟨EpInfoPtr.dev0ep, 0x41, 0⟩, ⟨EpInfoPtr.other 1, 0x4A, 9⟩,
      ⟨EpInfoPtr.other 2, 0x11, 3⟩, ⟨EpInfoPtr.other 3, 0x53, 9⟩,
      ⟨EpInfoPtr.other 4, 0x19, 7⟩, ⟨EpInfoPtr.other 5, 0x0A, 8⟩]⟩

/-- The state of `nestedHubs` after `FreeAddress(0x4A)`: the hub 0x4A, its
device 0x11, the hub 0x53 below it and the device 0x19 of that hub are gone,
and `hubCounter` went from 3 to 1. -/
def nestedHubsFreed : AddressPoolImpl :=
  ⟨⟨0, 0, 8, 0, 0x40, 0x10⟩, 1,
    [freeEntry, ⟨EpInfoPtr.dev0ep, 0x41, 0⟩, freeEntry, freeEntry, freeEntry, freeEntry,
      ⟨EpInfoPtr.other 5, 0x0A, 8⟩]⟩

/-- A rank for the entries of `nestedHubs`: the root hub above the hub 0x4A,
that above the hub 0x53, and every device at the bottom. -/
def nestedHubsRank (i : Nat) : Nat :=
  if i = 1 then 3 else if i = 2 then 2 else if i = 4 then 1 else 0

/-- Ten entries; the root hub was attached and then eight hubs below it. The
pair holds the nine returned addresses and the state reached. -/
def eightHubsBelowRootHub : List Nat × AddressPoolImpl :=
  allocSeq (freshPool 10) (⟨0, true, 0, 0⟩ :: List.replicate 8 ⟨0x41, true, 0, 0⟩)

/-- Five entries; three hubs were attached below a parent with local address
4 (`AllocAddress(0x0C, true)` gave 0x61, 0x62 and 0x63), entry 4 is free. -/
def threeHubs : AddressPoolImpl :=
  (allocSeq (freshPool 5) (List.replicate 3 ⟨0x0C, true, 0, 0⟩)).2

/-- Two entries: the hub 0x48 (parent field 1, local address 0) in entry 1,
with `hubCounter` 0. -/
def hubWithLocalZero : AddressPoolImpl :=
  ⟨⟨0, 0, 8, 0, 0x40, 0x10⟩, 0, [freeEntry, ⟨EpInfoPtr.other 1, 0x48, 9⟩]⟩

/-- A visitor that sets the device class of the entry it is given to 0xEE
(`pdev->devclass = 0xEE`). -/
def markClass (i : Nat) (q : AddressPoolImpl) : AddressPoolImpl :=
  { q with thePool := q.thePool.set i { entryAt q i with devclass := 0xEE } }

/-- A visitor that clears the address of the entry after the one it is given
(`pdev[1].address = 0`). -/
def clearNext (i : Nat) (q : AddressPoolImpl) : AddressPoolImpl := setAddrAt q (i + 1) 0

/-! ## Lemmas on the scan loop -/

theorem firstIndex_spec (test : Nat → Bool) (n i r : Nat)
    (h : firstIndex test i n = r) (hr : r ≠ 0) :
    i ≤ r ∧ r < i + n ∧ test r = true ∧ ∀ j, i ≤ j → j < r → test j = false := by
  induction n generalizing i with
  | zero => simp [firstIndex] at h; omega
  | succ n ih =>
    unfold firstIndex at h
    by_cases ht : test i = true
    · rw [if_pos ht] at h
      subst h
      exact ⟨le_refl _, by omega, ht, fun j h1 h2 => by omega⟩
    · rw [if_neg ht] at h
      obtain ⟨a, b, c, d⟩ := ih (i + 1) h
      refine ⟨by omega, by omega, c, fun j h1 h2 => ?_⟩
      by_cases hj : j = i
      · subst hj; simpa using ht
      · exact d j (by omega) h2

theorem firstIndex_none (test : Nat → Bool) (n i : Nat) (hi : 1 ≤ i)
    (h : firstIndex test i n = 0) : ∀ j, i ≤ j → j < i + n → test j = false := by
  induction n generalizing i with
  | zero => intro j h1 h2; omega
  | succ n ih =>
    unfold firstIndex at h
    by_cases ht : test i = true
    · rw [if_pos ht] at h; omega
    · rw [if_neg ht] at h
      intro j h1 h2
      by_cases hj : j = i
      · subst hj; simpa using ht
      · exact ih (i + 1) (by omega) h j (by omega) (by omega)

theorem firstIndex_found (test : Nat → Bool) (n i r : Nat) (h1 : i ≤ r) (h2 : r < i + n)
    (ht : test r = true) (hb : ∀ j, i ≤ j → j < r → test j = false) :
    firstIndex test i n = r := by
  induction n generalizing i with
  | zero => omega
  | succ n ih =>
    unfold firstIndex
    by_cases hir : i = r
    · subst hir; rw [if_pos ht]
    · have : test i = false := hb i (le_refl _) (by omega)
      rw [if_neg (by simp [this])]
      exact ih (i + 1) (by omega) (by omega) (fun j a b => hb j (by omega) b)

theorem firstIndex_absent (test : Nat → Bool) (n i : Nat)
    (hb : ∀ j, i ≤ j → j < i + n → test j = false) : firstIndex test i n = 0 := by
  induction n generalizing i with
  | zero => rfl
  | succ n ih =>
    unfold firstIndex
    have : test i = false := hb i (le_refl _) (by omega)
    rw [if_neg (by simp [this])]
    exact ih (i + 1) (fun j a b => hb j (by omega) (by omega))

/-! ## Lemmas on reads and writes of `thePool` -/

theorem entryAt_set (p : AddressPoolImpl) (i j : Nat) (e : UsbDevice) :
    entryAt { p with thePool := p.thePool.set i e } j =
      if i = j ∧ i < MAX_DEVICES_ALLOWED p then e else entryAt p j := by
  simp only [entryAt, MAX_DEVICES_ALLOWED, List.getD_eq_getElem?_getD, List.getElem?_set]
  by_cases h : i = j
  · subst h
    by_cases hl : i < p.thePool.length
    · simp [hl]
    · simp [hl, List.getElem?_eq_none (Nat.le_of_not_lt hl)]
  · simp [h]

theorem entryAt_InitEntry (p : AddressPoolImpl) (i j : Nat) :
    entryAt (InitEntry p i) j =
      if i = j ∧ i < MAX_DEVICES_ALLOWED p then freeEntry else entryAt p j :=
  entryAt_set p i j freeEntry

theorem addrAt_InitEntry (p : AddressPoolImpl) (i j : Nat) :
    addrAt (InitEntry p i) j = if i = j then 0 else addrAt p j := by
  unfold addrAt
  rw [entryAt_InitEntry]
  by_cases h : i = j
  · subst h
    by_cases hl : i < MAX_DEVICES_ALLOWED p
    · simp [hl, freeEntry]
    · simp only [hl, and_false, if_false, if_true]
      simp [entryAt, MAX_DEVICES_ALLOWED] at hl ⊢
      simp [List.getElem?_eq_none hl, freeEntry]
  · simp [h]

theorem MAX_InitEntry (p : AddressPoolImpl) (i : Nat) :
    MAX_DEVICES_ALLOWED (InitEntry p i) = MAX_DEVICES_ALLOWED p := by
  simp [MAX_DEVICES_ALLOWED, InitEntry]

theorem hubCounter_InitEntry (p : AddressPoolImpl) (i : Nat) :
    (InitEntry p i).hubCounter = p.hubCounter := rfl

theorem entryAt_setAddrAt (p : AddressPoolImpl) (i a j : Nat) :
    entryAt (setAddrAt p i a) j =
      if i = j ∧ i < MAX_DEVICES_ALLOWED p then { entryAt p i with address := a }
      else entryAt p j :=
  entryAt_set p i j _

theorem addrAt_setAddrAt (p : AddressPoolImpl) (i a j : Nat) :
    addrAt (setAddrAt p i a) j =
      if i = j ∧ i < MAX_DEVICES_ALLOWED p then a else addrAt p j := by
  unfold addrAt
  rw [entryAt_setAddrAt]
  split <;> rfl

theorem MAX_setAddrAt (p : AddressPoolImpl) (i a : Nat) :
    MAX_DEVICES_ALLOWED (setAddrAt p i a) = MAX_DEVICES_ALLOWED p := by
  simp [MAX_DEVICES_ALLOWED, setAddrAt]

/-! ## Lemmas on `FindAddressIndex` -/

theorem FindAddressIndex_spec (p : AddressPoolImpl) (a r : Nat)
    (h : FindAddressIndex p a = r) (hr : r ≠ 0) :
    1 ≤ r ∧ r < MAX_DEVICES_ALLOWED p ∧ addrAt p r = a ∧
      ∀ j, 1 ≤ j → j < r → addrAt p j ≠ a := by
  obtain ⟨h1, h2, h3, h4⟩ := firstIndex_spec _ _ _ _ h hr
  refine ⟨h1, by omega, by simpa using h3, fun j a b => ?_⟩
  simpa using h4 j a b

theorem FindAddressIndex_none (p : AddressPoolImpl) (a : Nat)
    (h : FindAddressIndex p a = 0) :
    ∀ j, 1 ≤ j → j < MAX_DEVICES_ALLOWED p → addrAt p j ≠ a := by
  intro j h1 h2
  simpa using firstIndex_none _ _ 1 (le_refl _) h j h1 (by omega)

theorem FindAddressIndex_found (p : AddressPoolImpl) (a r : Nat) (h1 : 1 ≤ r)
    (h2 : r < MAX_DEVICES_ALLOWED p) (h3 : addrAt p r = a)
    (h4 : ∀ j, 1 ≤ j → j < r → addrAt p j ≠ a) : FindAddressIndex p a = r :=
  firstIndex_found _ _ 1 r h1 (by omega) (by simpa using h3)
    (fun j a b => by simpa using h4 j a b)

theorem FindAddressIndex_absent (p : AddressPoolImpl) (a : Nat)
    (h : ∀ j, 1 ≤ j → j < MAX_DEVICES_ALLOWED p → addrAt p j ≠ a) :
    FindAddressIndex p a = 0 :=
  firstIndex_absent _ _ 1 (fun j a b => by simpa using h j a (by omega))

/-- Some entry at an index from 1 on holds `a` exactly when the scan finds one. -/
theorem FindAddressIndex_ne_zero_iff (p : AddressPoolImpl) (a : Nat) :
    FindAddressIndex p a ≠ 0 ↔ ∃ j, 1 ≤ j ∧ j < MAX_DEVICES_ALLOWED p ∧ addrAt p j = a := by
  constructor
  · intro h
    obtain ⟨h1, h2, h3, _⟩ := FindAddressIndex_spec p a _ rfl h
    exact ⟨_, h1, h2, h3⟩
  · rintro ⟨j, h1, h2, h3⟩ h0
    exact FindAddressIndex_none p a h0 j h1 h2 h3

/-! ## Lemmas on `InitAllAddresses` -/

theorem foldl_InitEntry_entryAt (n s : Nat) (p : AddressPoolImpl) (j : Nat) :
    entryAt ((List.range' s n).foldl InitEntry p) j =
      if s ≤ j ∧ j < s + n ∧ j < MAX_DEVICES_ALLOWED p then freeEntry else entryAt p j := by
  induction n generalizing s p with
  | zero =>
    have h : ¬ (s ≤ j ∧ j < s + 0 ∧ j < MAX_DEVICES_ALLOWED p) := by omega
    simp only [List.range'_zero, List.foldl_nil, h, if_false]
  | succ n ih =>
    rw [List.range'_succ, List.foldl_cons, ih, MAX_InitEntry, entryAt_InitEntry]
    by_cases h1 : s = j
    · subst h1
      by_cases h2 : s < MAX_DEVICES_ALLOWED p
      · simp [h2]
      · simp [h2]
    · by_cases h2 : s + 1 ≤ j ∧ j < s + 1 + n ∧ j < MAX_DEVICES_ALLOWED p
      · have h3 : s ≤ j ∧ j < s + (n + 1) ∧ j < MAX_DEVICES_ALLOWED p := by omega
        simp [h2, h3]
      · have h3 : ¬ (s ≤ j ∧ j < s + (n + 1) ∧ j < MAX_DEVICES_ALLOWED p) := by omega
        simp only [h2, h3, if_false, h1, false_and]

theorem foldl_InitEntry_hubCounter (n s : Nat) (p : AddressPoolImpl) :
    ((List.range' s n).foldl InitEntry p).hubCounter = p.hubCounter := by
  induction n generalizing s p with
  | zero => rfl
  | succ n ih => rw [List.range'_succ, List.foldl_cons, ih, hubCounter_InitEntry]

theorem foldl_InitEntry_MAX (n s : Nat) (p : AddressPoolImpl) :
    MAX_DEVICES_ALLOWED ((List.range' s n).foldl InitEntry p) = MAX_DEVICES_ALLOWED p := by
  induction n generalizing s p with
  | zero => rfl
  | succ n ih => rw [List.range'_succ, List.foldl_cons, ih, MAX_InitEntry]

theorem entryAt_InitAllAddresses (p : AddressPoolImpl) (j : Nat) :
    entryAt (InitAllAddresses p) j =
      if 1 ≤ j ∧ j < MAX_DEVICES_ALLOWED p then freeEntry else entryAt p j := by
  have h := foldl_InitEntry_entryAt (MAX_DEVICES_ALLOWED p - 1) 1 p j
  have e : entryAt (InitAllAddresses p) j =
      entryAt ((List.range' 1 (MAX_DEVICES_ALLOWED p - 1)).foldl InitEntry p) j := rfl
  rw [e, h]
  by_cases h1 : 1 ≤ j ∧ j < MAX_DEVICES_ALLOWED p
  · have h2 : 1 ≤ j ∧ j < 1 + (MAX_DEVICES_ALLOWED p - 1) ∧ j < MAX_DEVICES_ALLOWED p := by
      omega
    simp [h1, h2]
  · have h2 : ¬ (1 ≤ j ∧ j < 1 + (MAX_DEVICES_ALLOWED p - 1) ∧ j < MAX_DEVICES_ALLOWED p) := by
      omega
    simp only [h1, h2, if_false]

theorem MAX_InitAllAddresses (p : AddressPoolImpl) :
    MAX_DEVICES_ALLOWED (InitAllAddresses p) = MAX_DEVICES_ALLOWED p :=
  foldl_InitEntry_MAX _ 1 p

theorem foldl_keep (l : List Nat) (f : Nat → Prop) [DecidablePred f] (c : Nat) :
    l.foldl (fun c i => if f i then c else c) c = c := by
  induction l generalizing c with
  | nil => rfl
  | cons x xs ih => simp [List.foldl_cons, ih]

/-! ## Lemmas on the address byte built by `AllocAddress` -/

theorem bmAddress_devAddress (a b h r : Nat) : bmAddress (devAddress a b h r) = a % 8 := by
  unfold devAddress bmAddress; omega

theorem bmParent_devAddress (a b h r : Nat) : bmParent (devAddress a b h r) = b % 8 := by
  unfold devAddress bmParent; omega

theorem bmHub_devAddress (a b h r : Nat) : bmHub (devAddress a b h r) = h % 2 := by
  unfold devAddress bmHub; omega

theorem bmReserved_devAddress (a b h r : Nat) : bmReserved (devAddress a b h r) = r % 2 := by
  unfold devAddress bmReserved; omega

theorem hubByte_eq (raw parent c : Nat) :
    setBmAddress (setBmHub (setBmParent raw (bmAddress parent)) 1) c =
      devAddress c (bmAddress parent) 1 (bmReserved raw) := by
  simp only [setBmAddress, setBmHub, setBmParent, bmParent_devAddress, bmHub_devAddress,
    bmReserved_devAddress, bmAddress_devAddress]
  unfold devAddress bmAddress bmReserved
  omega

theorem deviceByte_eq (raw parent port : Nat) :
    setBmAddress (setBmHub (setBmParent raw (bmAddress parent)) 0) port =
      devAddress port (bmAddress parent) 0 (bmReserved raw) := by
  simp only [setBmAddress, setBmHub, setBmParent, bmParent_devAddress, bmHub_devAddress,
    bmReserved_devAddress, bmAddress_devAddress]
  unfold devAddress bmAddress bmReserved
  omega

theorem devAddress_eq_zero_iff (a b h r : Nat) :
    devAddress a b h r = 0 ↔ a % 8 = 0 ∧ b % 8 = 0 ∧ h % 2 = 0 ∧ r % 2 = 0 := by
  unfold devAddress; omega

theorem AllocAddress_guard (p : AddressPoolImpl) (parent : Nat) (is_hub : Bool)
    (port raw : Nat) (h : parent > 127 ∨ port > 7) :
    AllocAddress p parent is_hub port raw = (0, p) := by
  unfold AllocAddress; rw [if_pos h]

theorem AllocAddress_full (p : AddressPoolImpl) (parent : Nat) (is_hub : Bool)
    (port raw : Nat) (h : FindAddressIndex p 0 = 0) :
    AllocAddress p parent is_hub port raw = (0, p) := by
  unfold AllocAddress
  by_cases hg : parent > 127 ∨ port > 7
  · rw [if_pos hg]
  · rw [if_neg hg]; simp only [h, if_true]

theorem AllocAddress_value (p : AddressPoolImpl) (parent : Nat) (is_hub : Bool)
    (port raw : Nat) (hg : ¬ (parent > 127 ∨ port > 7)) (h : FindAddressIndex p 0 ≠ 0) :
    (AllocAddress p parent is_hub port raw).1 = allocByte p parent is_hub port raw := by
  obtain ⟨h1, h2, -, -⟩ := FindAddressIndex_spec p 0 _ rfl h
  unfold AllocAddress allocByte
  rw [if_neg hg]
  simp only [h, if_false]
  by_cases hp : parent = 0
  · simp only [hp, if_true, addrAt_setAddrAt, h2, and_self]
  · simp only [hp, if_false]
    cases is_hub
    · simp only [Bool.false_eq_true, if_false, addrAt_setAddrAt, h2, and_self, if_true,
        deviceByte_eq]
    · simp only [if_true, addrAt_setAddrAt, MAX_DEVICES_ALLOWED, h2, and_self, hubByte_eq]
      have h3 : FindAddressIndex p 0 < p.thePool.length := h2
      simp [h3]

theorem AllocAddress_addrAt (p : AddressPoolImpl) (parent : Nat) (is_hub : Bool)
    (port raw : Nat) (hg : ¬ (parent > 127 ∨ port > 7)) (h : FindAddressIndex p 0 ≠ 0)
    (j : Nat) :
    addrAt (AllocAddress p parent is_hub port raw).2 j =
      if j = FindAddressIndex p 0 then allocByte p parent is_hub port raw else addrAt p j := by
  obtain ⟨h1, h2, -, -⟩ := FindAddressIndex_spec p 0 _ rfl h
  have h3 : FindAddressIndex p 0 < p.thePool.length := h2
  unfold AllocAddress allocByte
  rw [if_neg hg]
  simp only [h, if_false]
  by_cases hp : parent = 0
  · simp only [hp, if_true, addrAt_setAddrAt, h2, and_true]
    by_cases hj : FindAddressIndex p 0 = j
    · simp [hj]
    · simp [hj, Ne.symm hj]
  · simp only [hp, if_false]
    cases is_hub
    · simp only [Bool.false_eq_true, if_false, addrAt_setAddrAt, h2, and_true, deviceByte_eq]
      by_cases hj : FindAddressIndex p 0 = j
      · simp [hj]
      · simp [hj, Ne.symm hj]
    · simp only [if_true, addrAt_setAddrAt, MAX_DEVICES_ALLOWED, h3, and_true, hubByte_eq]
      by_cases hj : FindAddressIndex p 0 = j
      · simp [hj]
      · simp only [hj, Ne.symm hj, if_false]
        rfl

theorem AllocAddress_MAX (p : AddressPoolImpl) (parent : Nat) (is_hub : Bool)
    (port raw : Nat) :
    MAX_DEVICES_ALLOWED (AllocAddress p parent is_hub port raw).2 = MAX_DEVICES_ALLOWED p := by
  unfold AllocAddress
  split
  · rfl
  · simp only []
    split
    · rfl
    · split
      · exact MAX_setAddrAt _ _ _
      · split
        · exact MAX_setAddrAt _ _ _
        · exact MAX_setAddrAt _ _ _

/-- What `AllocAddress` returns below a non-zero parent: the parent field, the
hub flag and the local address are the ones asked for and the returned address
is found again by `GetUsbDevicePtr`; the reserved bit is the one the local
`addr` held before its fields were assigned. -/
theorem AllocAddress_fields (p : AddressPoolImpl) (parent : Nat) (is_hub : Bool)
    (port raw : Nat) (hv : Valid p)
    (hfree : ∃ j, 1 ≤ j ∧ j < MAX_DEVICES_ALLOWED p ∧ addrAt p j = 0)
    (hp1 : 1 ≤ parent) (hp2 : parent ≤ 127) (hport : port ≤ 7) :
    bmParent (AllocAddress p parent is_hub port raw).1 = bmAddress parent ∧
      bmHub (AllocAddress p parent is_hub port raw).1 = (if is_hub then 1 else 0) ∧
      bmAddress (AllocAddress p parent is_hub port raw).1 =
        (if is_hub then bmAddress ((p.hubCounter + 1) % 256) else port) ∧
      bmReserved (AllocAddress p parent is_hub port raw).1 = bmReserved raw ∧
      ∃ i, GetUsbDevicePtr (AllocAddress p parent is_hub port raw).2
          (AllocAddress p parent is_hub port raw).1 = some i ∧
        addrAt (AllocAddress p parent is_hub port raw).2 i =
          (AllocAddress p parent is_hub port raw).1 := by
  have hne : FindAddressIndex p 0 ≠ 0 := (FindAddressIndex_ne_zero_iff p 0).mpr hfree
  have hg : ¬ (parent > 127 ∨ port > 7) := by omega
  obtain ⟨i1, i2, -, -⟩ := FindAddressIndex_spec p 0 _ rfl hne
  have hval := AllocAddress_value p parent is_hub port raw hg hne
  have hat := AllocAddress_addrAt p parent is_hub port raw hg hne
  have hp0 : parent ≠ 0 := by omega
  have hb : bmAddress parent % 8 = bmAddress parent := by unfold bmAddress; omega
  have hr : bmReserved raw % 2 = bmReserved raw := by unfold bmReserved; omega
  have hbyte : allocByte p parent is_hub port raw =
      devAddress (if is_hub then (p.hubCounter + 1) % 256 else port) (bmAddress parent)
        (if is_hub then 1 else 0) (bmReserved raw) := by
    unfold allocByte
    rw [if_neg hp0]
    cases is_hub <;> simp
  refine ⟨?_, ?_, ?_, ?_, ?_⟩
  · rw [hval, hbyte, bmParent_devAddress, hb]
  · rw [hval, hbyte, bmHub_devAddress]; cases is_hub <;> simp
  · rw [hval, hbyte, bmAddress_devAddress]
    cases is_hub
    · simp only [Bool.false_eq_true, if_false]; omega
    · simp only [if_true, bmAddress]
  · rw [hval, hbyte, bmReserved_devAddress, hr]
  · rw [hval]
    by_cases hz : allocByte p parent is_hub port raw = 0
    · refine ⟨0, by simp [GetUsbDevicePtr, hz], ?_⟩
      rw [hat 0, if_neg (by omega), hz]
      exact hv.2.2.2.2
    · have hheld : FindAddressIndex (AllocAddress p parent is_hub port raw).2
          (allocByte p parent is_hub port raw) ≠ 0 := by
        rw [FindAddressIndex_ne_zero_iff]
        refine ⟨FindAddressIndex p 0, i1, ?_, ?_⟩
        · rw [AllocAddress_MAX]; exact i2
        · rw [hat, if_pos rfl]
      obtain ⟨-, -, j3, -⟩ := FindAddressIndex_spec _ _ _ rfl hheld
      refine ⟨_, ?_, j3⟩
      unfold GetUsbDevicePtr
      rw [if_neg hz]
      simp only [hheld, if_false]

/-! ## Allocation -/

/-- C1: the attach `AllocAddress(0x41, false, 2)` on a pool that holds the root
hub, run with bit 7 of the uninitialised local `addr` set, returns 0x8A: the
parent field is 1, the hub flag 0 and the local address 2, as asked, but the
reserved bit of the returned address is 1. -/
theorem AllocAddress_reserved_bit_indeterminate :
    (AllocAddress rootHubOnly 0x41 false 2 0x80).1 = 0x8A ∧
      bmParent 0x8A = bmAddress 0x41 ∧ bmHub 0x8A = 0 ∧ bmAddress 0x8A = 2 ∧
      bmReserved 0x8A = 1 ∧
      GetUsbDevicePtr (AllocAddress rootHubOnly 0x41 false 2 0x80).2 0x8A = some 2 := by
  decide

/-- C2: on a pool whose lowest-index free entry from index 1 on is `k`, a root
attach (`parent = 0`) with a port in 0..7 returns 0x41 for a hub and 1 for a
device, entry `k` holds that value afterwards, and 0x41 decodes to hub flag 1,
parent 0, local address 1. -/
theorem AllocAddress_root_attach (p : AddressPoolImpl) (is_hub : Bool) (port raw k : Nat)
    (hport : port ≤ 7) (hk1 : 1 ≤ k) (hk2 : k < MAX_DEVICES_ALLOWED p)
    (hfree : addrAt p k = 0) (hlow : ∀ j, 1 ≤ j → j < k → addrAt p j ≠ 0) :
    (AllocAddress p 0 is_hub port raw).1 = (if is_hub then 0x41 else 1) ∧
      addrAt (AllocAddress p 0 is_hub port raw).2 k = (if is_hub then 0x41 else 1) ∧
      bmHub 0x41 = 1 ∧ bmParent 0x41 = 0 ∧ bmAddress 0x41 = 1 := by
  have hidx : FindAddressIndex p 0 = k := FindAddressIndex_found p 0 k hk1 hk2 hfree hlow
  have hne : FindAddressIndex p 0 ≠ 0 := by omega
  have hg : ¬ ((0 : Nat) > 127 ∨ port > 7) := by omega
  refine ⟨?_, ?_, by decide, by decide, by decide⟩
  · rw [AllocAddress_value p 0 is_hub port raw hg hne]
    simp [allocByte]
  · rw [AllocAddress_addrAt p 0 is_hub port raw hg hne, hidx]
    simp [allocByte]

theorem AllocAddress_root_attach_witness :
    (AllocAddress rootHubOnly 0 false 0 0).1 = (if false then 0x41 else 1) ∧
      addrAt (AllocAddress rootHubOnly 0 false 0 0).2 2 = (if false then 0x41 else 1) ∧
      bmHub 0x41 = 1 ∧ bmParent 0x41 = 0 ∧ bmAddress 0x41 = 1 :=
  AllocAddress_root_attach rootHubOnly false 0 0 2 (by decide) (by decide) (by decide)
    (by decide) (fun j h1 h2 => by
      have : j = 1 := by omega
      subst this; decide)

/-- C3, as stated, fails: on a fresh pool of two entries `AllocAddress(8, false, 0)`
returns 0 although the parent is at most 127, the port at most 7 and entry 1
is free. -/
theorem AllocAddress_zero_iff_fails :
    ¬ ((AllocAddress (freshPool 2) 8 false 0 0).1 = 0 ↔
        (8 > 127 ∨ 0 > 7 ∨
          ∀ j, 1 ≤ j → j < MAX_DEVICES_ALLOWED (freshPool 2) → addrAt (freshPool 2) j ≠ 0)) := by
  intro h
  have h1 : (AllocAddress (freshPool 2) 8 false 0 0).1 = 0 := by decide
  rcases h.mp h1 with h2 | h2 | h2
  · omega
  · omega
  · exact h2 1 (by decide) (by decide) (by decide)

/-- C3, amended: `AllocAddress` returns 0 exactly when the parent is above 127,
or the port is above 7, or no entry from index 1 on is free, or the request is
a device request with port 0 below a non-zero parent whose local address field
is 0 and the reserved bit of the local `addr` is clear (the encoded byte is
then 0). -/
theorem AllocAddress_zero_iff (p : AddressPoolImpl) (parent : Nat) (is_hub : Bool)
    (port raw : Nat) :
    (AllocAddress p parent is_hub port raw).1 = 0 ↔
      (parent > 127 ∨ port > 7 ∨
        (∀ j, 1 ≤ j → j < MAX_DEVICES_ALLOWED p → addrAt p j ≠ 0) ∨
        (parent ≠ 0 ∧ is_hub = false ∧ port = 0 ∧ bmAddress parent = 0 ∧
          bmReserved raw = 0)) := by
  by_cases hg : parent > 127 ∨ port > 7
  · rw [AllocAddress_guard p parent is_hub port raw hg]
    constructor
    · intro _
      rcases hg with hg | hg
      · exact Or.inl hg
      · exact Or.inr (Or.inl hg)
    · intro _; rfl
  · by_cases hf : FindAddressIndex p 0 = 0
    · rw [AllocAddress_full p parent is_hub port raw hf]
      constructor
      · intro _
        exact Or.inr (Or.inr (Or.inl (FindAddressIndex_none p 0 hf)))
      · intro _; rfl
    · rw [AllocAddress_value p parent is_hub port raw hg hf]
      have hnf : ¬ (∀ j, 1 ≤ j → j < MAX_DEVICES_ALLOWED p → addrAt p j ≠ 0) :=
        fun h => hf (FindAddressIndex_absent p 0 h)
      have hp8 : port % 8 = port := by omega
      have hb : bmAddress parent % 8 = bmAddress parent := by unfold bmAddress; omega
      have hr : bmReserved raw % 2 = bmReserved raw := by unfold bmReserved; omega
      unfold allocByte
      by_cases hp : parent = 0
      · simp only [hp, if_true]
        constructor
        · intro h; cases is_hub <;> simp at h
        · rintro (h | h | h | h)
          · omega
          · omega
          · exact absurd h (by simpa [hp] using hnf)
          · exact absurd rfl h.1
      · simp only [hp, if_false]
        cases is_hub
        · simp only [Bool.false_eq_true, if_false, devAddress_eq_zero_iff, hp8, hb, hr]
          constructor
          · rintro ⟨h1, h2, -, h4⟩
            exact Or.inr (Or.inr (Or.inr ⟨hp, trivial, h1, h2, h4⟩))
          · rintro (h | h | h | h)
            · exact absurd (Or.inl h) hg
            · exact absurd (Or.inr h) hg
            · exact absurd h hnf
            · exact ⟨h.2.2.1, h.2.2.2.1, by decide, h.2.2.2.2⟩
        · simp only [if_true, devAddress_eq_zero_iff]
          constructor
          · rintro ⟨-, -, h3, -⟩
            exact absurd h3 (by decide)
          · rintro (h | h | h | h)
            · exact absurd (Or.inl h) hg
            · exact absurd (Or.inr h) hg
            · exact absurd h hnf
            · exact absurd h.2.1 (by decide)

theorem construct_MAX (s r : Nat) (mem : AddressPoolImpl) :
    MAX_DEVICES_ALLOWED (construct s r mem) = MAX_DEVICES_ALLOWED mem := by
  unfold construct
  rw [MAX_InitAllAddresses]
  simp [MAX_DEVICES_ALLOWED, InitEntry, setAddrAt]

theorem construct_entryAt (s r : Nat) (mem : AddressPoolImpl) (j : Nat) (h1 : 1 ≤ j)
    (h2 : j < MAX_DEVICES_ALLOWED mem) : entryAt (construct s r mem) j = freeEntry := by
  unfold construct
  rw [entryAt_InitAllAddresses, if_pos]
  refine ⟨h1, ?_⟩
  simpa [MAX_DEVICES_ALLOWED, InitEntry, setAddrAt] using h2

theorem allocByte_ne_zero (p : AddressPoolImpl) (r : Request) (h : r.accepted) :
    allocByte p r.parent r.is_hub r.port r.raw ≠ 0 := by
  obtain ⟨-, h2, h3⟩ := h
  unfold allocByte
  by_cases hp : r.parent = 0
  · rw [if_pos hp]; split <;> decide
  · rw [if_neg hp]
    by_cases hh : r.is_hub = true
    · rw [if_pos hh, Ne, devAddress_eq_zero_iff]
      rintro ⟨-, -, h, -⟩
      exact absurd h (by decide)
    · rw [if_neg hh, Ne, devAddress_eq_zero_iff]
      rintro ⟨h, -⟩
      rcases h3 with h3 | h3 | h3
      · exact hp h3
      · exact hh h3
      · omega

/-- One accepted request on a pool whose entries 1..k are in use and whose
entries k+1.. are free takes entry k+1 and returns a non-zero address. -/
theorem AllocAddress_fill_step (N k : Nat) (p : AddressPoolImpl) (r : Request)
    (hN : MAX_DEVICES_ALLOWED p = N)
    (hfill : ∀ j, 1 ≤ j → j < N → (addrAt p j = 0 ↔ k < j))
    (hk : k + 1 < N) (hacc : r.accepted) :
    (AllocAddress p r.parent r.is_hub r.port r.raw).1 ≠ 0 ∧
      MAX_DEVICES_ALLOWED (AllocAddress p r.parent r.is_hub r.port r.raw).2 = N ∧
      ∀ j, 1 ≤ j → j < N →
        (addrAt (AllocAddress p r.parent r.is_hub r.port r.raw).2 j = 0 ↔ k + 1 < j) := by
  have hidx : FindAddressIndex p 0 = k + 1 :=
    FindAddressIndex_found p 0 (k + 1) (by omega) (by omega)
      ((hfill (k + 1) (by omega) hk).mpr (by omega))
      (fun j h1 h2 h0 => by have := (hfill j h1 (by omega)).mp h0; omega)
  have hne : FindAddressIndex p 0 ≠ 0 := by omega
  have hg : ¬ (r.parent > 127 ∨ r.port > 7) := by
    have := hacc.1; have := hacc.2.1; omega
  have hb := allocByte_ne_zero p r hacc
  refine ⟨?_, ?_, ?_⟩
  · rw [AllocAddress_value p _ _ _ _ hg hne]; exact hb
  · rw [AllocAddress_MAX]; exact hN
  · intro j h1 h2
    rw [AllocAddress_addrAt p _ _ _ _ hg hne, hidx]
    by_cases hj : j = k + 1
    · rw [if_pos hj]
      constructor
      · intro h; exact absurd h hb
      · intro h; omega
    · rw [if_neg hj, hfill j h1 h2]
      omega

theorem allocSeq_fill (N : Nat) (reqs : List Request) (k : Nat) (p : AddressPoolImpl)
    (hN : MAX_DEVICES_ALLOWED p = N)
    (hfill : ∀ j, 1 ≤ j → j < N → (addrAt p j = 0 ↔ k < j))
    (hlen : k + reqs.length < N) (hok : ∀ r ∈ reqs, r.accepted) :
    (allocSeq p reqs).1.length = reqs.length ∧
      (∀ a ∈ (allocSeq p reqs).1, a ≠ 0) ∧
      MAX_DEVICES_ALLOWED (allocSeq p reqs).2 = N ∧
      ∀ j, 1 ≤ j → j < N → (addrAt (allocSeq p reqs).2 j = 0 ↔ k + reqs.length < j) := by
  induction reqs generalizing k p with
  | nil => exact ⟨rfl, by simp [allocSeq], hN, by simpa [allocSeq] using hfill⟩
  | cons r rs ih =>
    have hlen2 : k + 1 + rs.length < N := by simp at hlen; omega
    obtain ⟨s1, s2, s3⟩ := AllocAddress_fill_step N k p r hN hfill (by omega)
      (hok r (List.mem_cons_self _ _))
    obtain ⟨t1, t2, t3, t4⟩ := ih (k + 1) _ s2 s3 hlen2
      (fun x hx => hok x (List.mem_cons_of_mem _ hx))
    refine ⟨by simp [allocSeq, t1], ?_, t3, ?_⟩
    · intro a ha
      simp only [allocSeq, List.mem_cons] at ha
      rcases ha with ha | ha
      · rw [ha]; exact s1
      · exact t2 a ha
    · intro j h1 h2
      have := t4 j h1 h2
      simp only [allocSeq, List.length_cons]
      rw [this]
      omega

/-- C4: on a freshly constructed pool of `N ≥ 1` entries, any `N - 1`
consecutive `AllocAddress` calls inside the range guard, each a root attach, a
hub request or a request with a port from 1 on, all return a non-zero address,
and the call after them returns 0 (whatever its arguments). -/
theorem AllocAddress_capacity (N : Nat) (hN : 1 ≤ N) (s r : Nat) (mem : AddressPoolImpl)
    (hmem : MAX_DEVICES_ALLOWED mem = N) (reqs : List Request) (last : Request)
    (hlen : reqs.length = N - 1) (hok : ∀ q ∈ reqs, q.accepted) :
    (allocSeq (construct s r mem) reqs).1.length = N - 1 ∧
      (∀ a ∈ (allocSeq (construct s r mem) reqs).1, a ≠ 0) ∧
      (AllocAddress (allocSeq (construct s r mem) reqs).2
        last.parent last.is_hub last.port last.raw).1 = 0 := by
  have h0 : ∀ j, 1 ≤ j → j < N → (addrAt (construct s r mem) j = 0 ↔ 0 < j) := by
    intro j h1 h2
    unfold addrAt
    rw [construct_entryAt s r mem j h1 (by omega)]
    simp [freeEntry]; omega
  obtain ⟨t1, t2, t3, t4⟩ := allocSeq_fill N reqs 0 (construct s r mem)
    (by rw [construct_MAX]; exact hmem) h0 (by omega) hok
  refine ⟨by rw [t1, hlen], t2, ?_⟩
  rw [AllocAddress_full]
  apply FindAddressIndex_absent
  intro j h1 h2 h3
  rw [t3] at h2
  have := (t4 j h1 h2).mp h3
  omega

theorem AllocAddress_capacity_witness :
    (allocSeq (construct 0x40 0x10 (rawPool 3))
        [⟨0, true, 0, 0⟩, ⟨0x41, false, 2, 0⟩]).1.length = 3 - 1 ∧
      (∀ a ∈ (allocSeq (construct 0x40 0x10 (rawPool 3))
        [⟨0, true, 0, 0⟩, ⟨0x41, false, 2, 0⟩]).1, a ≠ 0) ∧
      (AllocAddress (allocSeq (construct 0x40 0x10 (rawPool 3))
        [⟨0, true, 0, 0⟩, ⟨0x41, false, 2, 0⟩]).2
        (Request.mk 0x41 false 3 0).parent (Request.mk 0x41 false 3 0).is_hub
        (Request.mk 0x41 false 3 0).port (Request.mk 0x41 false 3 0).raw).1 = 0 :=
  AllocAddress_capacity 3 (by decide) 0x40 0x10 (rawPool 3) (by decide)
    [⟨0, true, 0, 0⟩, ⟨0x41, false, 2, 0⟩] ⟨0x41, false, 3, 0⟩ (by decide) (by decide)

/-! ## Lemmas on the cascade of `FreeAddressByIndex` -/

theorem addrAt_of_MAX_le (p : AddressPoolImpl) (j : Nat) (h : MAX_DEVICES_ALLOWED p ≤ j) :
    addrAt p j = 0 := by
  unfold addrAt entryAt
  rw [List.getD_eq_default _ _ h]
  rfl

theorem FindChildIndex_spec (p : AddressPoolImpl) (a start r : Nat)
    (h : FindChildIndex p a start = r) (hr : r ≠ 0) :
    (if start < 1 ∨ start ≥ MAX_DEVICES_ALLOWED p then 1 else start) ≤ r ∧
      1 ≤ r ∧ r < MAX_DEVICES_ALLOWED p ∧ bmParent (addrAt p r) = bmAddress a ∧
      ∀ j, (if start < 1 ∨ start ≥ MAX_DEVICES_ALLOWED p then 1 else start) ≤ j → j < r →
        bmParent (addrAt p j) ≠ bmAddress a := by
  unfold FindChildIndex at h
  obtain ⟨h1, h2, h3, h4⟩ := firstIndex_spec _ _ _ _ h hr
  have hf : 1 ≤ (if start < 1 ∨ start ≥ MAX_DEVICES_ALLOWED p then 1 else start) := by
    split <;> omega
  refine ⟨h1, by omega, by omega, by simpa using h3, fun j a b => ?_⟩
  simpa using h4 j a b

theorem FindChildIndex_none (p : AddressPoolImpl) (a start : Nat)
    (h : FindChildIndex p a start = 0) :
    ∀ j, (if start < 1 ∨ start ≥ MAX_DEVICES_ALLOWED p then 1 else start) ≤ j →
      j < MAX_DEVICES_ALLOWED p → bmParent (addrAt p j) ≠ bmAddress a := by
  unfold FindChildIndex at h
  have hf : 1 ≤ (if start < 1 ∨ start ≥ MAX_DEVICES_ALLOWED p then 1 else start) := by
    split <;> omega
  intro j h1 h2
  simpa using firstIndex_none _ _ _ hf h j h1 (by omega)

theorem Cascaded_refl (p : AddressPoolImpl) : Cascaded p p := by
  refine ⟨rfl, fun j => Or.inl rfl, ?_⟩
  intro j _ hh h0
  rw [h0] at hh
  exact absurd hh (by decide)

theorem Cascaded_trans (p q t : AddressPoolImpl) (h1 : Cascaded p q) (h2 : Cascaded q t) :
    Cascaded p t := by
  obtain ⟨m1, s1, c1⟩ := h1
  obtain ⟨m2, s2, c2⟩ := h2
  refine ⟨m2.trans m1, ?_, ?_⟩
  · intro j
    rcases s2 j with h | h
    · rw [h]; exact s1 j
    · exact Or.inr h
  · intro j hj hh h0 s hs hne
    have hts : addrAt t s = addrAt q s := by
      rcases s2 s with h | h
      · exact h
      · exact absurd h hne
    by_cases hq : addrAt q j = 0
    · rw [hts]
      exact c1 j hj hh hq s hs (by rw [← hts]; exact hne)
    · have hqp : addrAt q j = addrAt p j := by
        rcases s1 j with h | h
        · exact h
        · exact absurd h hq
      rw [← hqp]
      exact c2 j hj (by rw [hqp]; exact hh) h0 s hs hne

theorem Cascaded_InitEntry_device (p : AddressPoolImpl) (index : Nat)
    (h : bmHub (addrAt p index) ≠ 1) : Cascaded p (InitEntry p index) := by
  refine ⟨MAX_InitEntry p index, ?_, ?_⟩
  · intro j
    rw [addrAt_InitEntry]
    by_cases hj : index = j
    · exact Or.inr (by rw [if_pos hj])
    · exact Or.inl (by rw [if_neg hj])
  · intro j _ hh h0
    rw [addrAt_InitEntry] at h0
    by_cases hj : index = j
    · subst hj; exact absurd hh h
    · rw [if_neg hj] at h0
      rw [h0] at hh
      exact absurd hh (by decide)

theorem addrAt_decHubCounter (p : AddressPoolImpl) (index j : Nat) :
    addrAt (decHubCounter p index) j = addrAt p j := by
  unfold decHubCounter
  split <;> rfl

theorem MAX_decHubCounter (p : AddressPoolImpl) (index : Nat) :
    MAX_DEVICES_ALLOWED (decHubCounter p index) = MAX_DEVICES_ALLOWED p := by
  unfold decHubCounter
  split <;> rfl

/-- The loop over the children: if every recursive call relates its states by
`Cascaded`, so does the loop; and when the hub entry `index` still holds its
address at the end, no entry from index 1 on holds a non-zero address whose
parent field is the local address of the hub, provided that was so for the
entries below the index the loop was entered with. -/
theorem freeChildren_Cascaded (self : AddressPoolImpl → Nat → Option AddressPoolImpl)
    (hself : ∀ p i q, self p i = some q → Cascaded p q)
    (fuel : Nat) (p : AddressPoolImpl) (index i : Nat) (q : AddressPoolImpl)
    (h : freeChildren self fuel p index i = some q) :
    Cascaded p q ∧
      (addrAt q index ≠ 0 →
        (∀ s, 1 ≤ s → s < (if i < 1 ∨ i ≥ MAX_DEVICES_ALLOWED p then 1 else i) →
          addrAt p s ≠ 0 → bmParent (addrAt p s) ≠ bmAddress (addrAt p index)) →
        ∀ s, 1 ≤ s → addrAt q s ≠ 0 →
          bmParent (addrAt q s) ≠ bmAddress (addrAt p index)) := by
  induction fuel generalizing p i with
  | zero => simp [freeChildren] at h
  | succ n ih =>
    unfold freeChildren at h
    by_cases hnext : FindChildIndex p (addrAt p index) i = 0
    · simp only [hnext, if_true, Option.some.injEq] at h
      subst h
      refine ⟨Cascaded_refl p, ?_⟩
      intro _ hlow s hs hne
      by_cases h1 : s < (if i < 1 ∨ i ≥ MAX_DEVICES_ALLOWED p then 1 else i)
      · exact hlow s hs h1 hne
      · by_cases h2 : s < MAX_DEVICES_ALLOWED p
        · exact FindChildIndex_none p _ i hnext s (by omega) h2
        · exact absurd (addrAt_of_MAX_le p s (by omega)) hne
    · simp only [hnext, if_false] at h
      obtain ⟨f1, f2, f3, f4, f5⟩ := FindChildIndex_spec p _ i _ rfl hnext
      cases hs : self p (FindChildIndex p (addrAt p index) i) with
      | none => rw [hs] at h; simp at h
      | some q1 =>
        rw [hs] at h
        simp only at h
        have c1 := hself _ _ _ hs
        obtain ⟨c2, d2⟩ := ih q1 _ h
        refine ⟨Cascaded_trans p q1 q c1 c2, ?_⟩
        intro hq hlow s hs1 hne
        have hq1 : addrAt q1 index ≠ 0 := by
          rcases c2.2.1 index with e | e
          · rw [← e]; exact hq
          · exact absurd e hq
        have hidx : addrAt q1 index = addrAt p index := by
          rcases c1.2.1 index with e | e
          · exact e
          · exact absurd e hq1
        have hstart : (if FindChildIndex p (addrAt p index) i < 1 ∨
            FindChildIndex p (addrAt p index) i ≥ MAX_DEVICES_ALLOWED q1 then 1
            else FindChildIndex p (addrAt p index) i) = FindChildIndex p (addrAt p index) i := by
          rw [c1.1, if_neg (by omega)]
        rw [← hidx]
        apply d2 hq _ s hs1 hne
        intro s2 hs2 hlt hne2
        rw [hstart] at hlt
        have e2 : addrAt q1 s2 = addrAt p s2 := by
          rcases c1.2.1 s2 with e | e
          · exact e
          · exact absurd e hne2
        rw [e2, hidx]
        by_cases h1 : s2 < (if i < 1 ∨ i ≥ MAX_DEVICES_ALLOWED p then 1 else i)
        · exact hlow s2 hs2 h1 (by rw [← e2]; exact hne2)
        · exact f5 s2 (by omega) hlt

theorem FreeAddressByIndex_Cascaded (fuel : Nat) (p : AddressPoolImpl) (index : Nat)
    (q : AddressPoolImpl) (h : FreeAddressByIndex fuel p index = some q) :
    Cascaded p q ∧ (index ≠ 0 → entryAt q index = freeEntry) := by
  induction fuel generalizing p index q with
  | zero => simp [FreeAddressByIndex] at h
  | succ n ih =>
    unfold FreeAddressByIndex at h
    by_cases h0 : index = 0
    · simp only [h0, if_true, Option.some.injEq] at h
      subst h
      exact ⟨Cascaded_refl p, fun hne => absurd h0 hne⟩
    · rw [if_neg h0] at h
      have hfree : ∀ t : AddressPoolImpl, entryAt (InitEntry t index) index = freeEntry := by
        intro t
        rw [entryAt_InitEntry]
        split
        · rfl
        · rename_i hn
          unfold entryAt
          rw [List.getD_eq_default]
          have : ¬ index < MAX_DEVICES_ALLOWED t := fun hlt => hn ⟨rfl, hlt⟩
          unfold MAX_DEVICES_ALLOWED at this
          omega
      by_cases hh : bmHub (addrAt p index) = 1
      · rw [if_pos hh] at h
        cases hl : freeChildren (FreeAddressByIndex n) n p index 1 with
        | none => rw [hl] at h; simp at h
        | some q1 =>
          rw [hl] at h
          simp only [Option.some.injEq] at h
          subst h
          obtain ⟨c1, d1⟩ := freeChildren_Cascaded (FreeAddressByIndex n)
            (fun a b c e => (ih a b c e).1) n p index 1 q1 hl
          refine ⟨⟨?_, ?_, ?_⟩, fun _ => hfree _⟩
          · rw [MAX_InitEntry, MAX_decHubCounter]; exact c1.1
          · intro j
            rw [addrAt_InitEntry, addrAt_decHubCounter]
            by_cases hj : index = j
            · exact Or.inr (by rw [if_pos hj])
            · rw [if_neg hj]; exact c1.2.1 j
          · intro j hj hhub hz s hs hne
            rw [addrAt_InitEntry, addrAt_decHubCounter] at hne hz ⊢
            have hsi : ¬ index = s := fun e => by rw [if_pos e] at hne; exact hne rfl
            rw [if_neg hsi] at hne ⊢
            by_cases hq1 : addrAt q1 j = 0
            · exact c1.2.2 j hj hhub hq1 s hs hne
            · have hji : index = j := by
                by_contra hc
                rw [if_neg hc] at hz
                exact hq1 hz
              subst hji
              apply d1 hq1 _ s hs hne
              intro s2 hs2 hlt
              have : (if 1 < 1 ∨ 1 ≥ MAX_DEVICES_ALLOWED p then 1 else 1) = 1 := by
                split <;> rfl
              omega
      · rw [if_neg hh] at h
        simp only [Option.some.injEq] at h
        subst h
        exact ⟨Cascaded_InitEntry_device p index hh, fun _ => hfree p⟩

/-! ## Termination of the cascade on a forest -/

theorem Forest_shrink (rank : Nat → Nat) (p q : AddressPoolImpl) (hf : Forest rank p)
    (hs : ∀ j, addrAt q j = addrAt p j ∨ addrAt q j = 0) : Forest rank q := by
  have keep : ∀ j, addrAt q j ≠ 0 → addrAt q j = addrAt p j := by
    intro j hne
    rcases hs j with e | e
    · exact e
    · exact absurd e hne
  have hubne : ∀ j, bmHub (addrAt q j) = 1 → addrAt q j ≠ 0 := by
    intro j hh h0
    rw [h0] at hh
    exact absurd hh (by decide)
  refine ⟨?_, ?_⟩
  · intro t ht hh
    have e := keep t (hubne t hh)
    rw [e] at hh ⊢
    exact hf.1 t ht hh
  · intro s t h1 h2 hne hh hp
    have e1 := keep s hne
    have e2 := keep t (hubne t hh)
    rw [e1] at hne hp
    rw [e2] at hh hp
    exact hf.2 s t h1 h2 hne hh hp

/-- On a forest the loop over the children changes only entries whose rank is
below the rank of the hub entry `index`. -/
theorem freeChildren_frame (rank : Nat → Nat)
    (self : AddressPoolImpl → Nat → Option AddressPoolImpl)
    (hself : ∀ p i q, Forest rank p → self p i = some q →
      Cascaded p q ∧ ∀ j, addrAt q j ≠ addrAt p j → rank j ≤ rank i)
    (fuel : Nat) (p : AddressPoolImpl) (index i : Nat) (q : AddressPoolImpl)
    (hf : Forest rank p) (hidx : 1 ≤ index) (hh : bmHub (addrAt p index) = 1)
    (h : freeChildren self fuel p index i = some q) :
    ∀ j, addrAt q j ≠ addrAt p j → rank j < rank index := by
  induction fuel generalizing p i with
  | zero => simp [freeChildren] at h
  | succ n ih =>
    unfold freeChildren at h
    by_cases hnext : FindChildIndex p (addrAt p index) i = 0
    · simp only [hnext, if_true, Option.some.injEq] at h
      subst h
      intro j hj
      exact absurd rfl hj
    · simp only [hnext, if_false] at h
      obtain ⟨-, f2, -, f4, -⟩ := FindChildIndex_spec p _ i _ rfl hnext
      cases hs : self p (FindChildIndex p (addrAt p index) i) with
      | none => rw [hs] at h; simp at h
      | some q1 =>
        rw [hs] at h
        simp only at h
        obtain ⟨c1, fr1⟩ := hself _ _ _ hf hs
        have hloc := hf.1 index hidx hh
        have hne : addrAt p (FindChildIndex p (addrAt p index) i) ≠ 0 := by
          intro e
          rw [e] at f4
          exact hloc f4.symm
        have hrk := hf.2 _ index f2 hidx hne hh f4
        have hkeep : addrAt q1 index = addrAt p index := by
          by_contra e
          have := fr1 index e
          omega
        have hf1 := Forest_shrink rank p q1 hf c1.2.1
        intro j hj
        by_cases e : addrAt q1 j = addrAt p j
        · have := ih q1 _ hf1 (by rw [hkeep]; exact hh) h j (by rw [e]; exact hj)
          exact this
        · have := fr1 j e
          omega

/-- On a forest `FreeAddressByIndex(index)` changes only entries whose rank is
at most the rank of `index`. -/
theorem FreeAddressByIndex_frame (rank : Nat → Nat) (fuel : Nat) (p : AddressPoolImpl)
    (index : Nat) (q : AddressPoolImpl) (hf : Forest rank p)
    (h : FreeAddressByIndex fuel p index = some q) :
    ∀ j, addrAt q j ≠ addrAt p j → rank j ≤ rank index := by
  induction fuel generalizing p index q with
  | zero => simp [FreeAddressByIndex] at h
  | succ n ih =>
    unfold FreeAddressByIndex at h
    by_cases h0 : index = 0
    · simp only [h0, if_true, Option.some.injEq] at h
      subst h
      intro j hj
      exact absurd rfl hj
    · rw [if_neg h0] at h
      by_cases hh : bmHub (addrAt p index) = 1
      · rw [if_pos hh] at h
        cases hl : freeChildren (FreeAddressByIndex n) n p index 1 with
        | none => rw [hl] at h; simp at h
        | some q1 =>
          rw [hl] at h
          simp only [Option.some.injEq] at h
          subst h
          have fr := freeChildren_frame rank (FreeAddressByIndex n)
            (fun a b c fa e => ⟨(FreeAddressByIndex_Cascaded n a b c e).1, ih a b c fa e⟩)
            n p index 1 q1 hf (by omega) hh hl
          intro j hj
          rw [addrAt_InitEntry, addrAt_decHubCounter] at hj
          by_cases e : index = j
          · subst e; exact le_refl _
          · rw [if_neg e] at hj
            exact Nat.le_of_lt (fr j hj)
      · rw [if_neg hh] at h
        simp only [Option.some.injEq] at h
        subst h
        intro j hj
        rw [addrAt_InitEntry] at hj
        by_cases e : index = j
        · subst e; exact le_refl _
        · rw [if_neg e] at hj
          exact absurd rfl hj

/-- The loop over the children returns when it is entered at an index whose
entry is no child of the hub, the recursive calls on entries of smaller rank
return, and the budget covers the rest of the table. -/
theorem freeChildren_returns_from (rank : Nat → Nat) (N index : Nat)
    (self : AddressPoolImpl → Nat → Option AddressPoolImpl)
    (hself : ∀ p i, Forest rank p → MAX_DEVICES_ALLOWED p = N → 1 ≤ i →
      rank i < rank index → ∃ q, self p i = some q ∧ Cascaded p q ∧ addrAt q i = 0 ∧
        ∀ j, addrAt q j ≠ addrAt p j → rank j ≤ rank i)
    (hidx : 1 ≤ index) (f : Nat) (p : AddressPoolImpl) (i : Nat)
    (hf : Forest rank p) (hN : MAX_DEVICES_ALLOWED p = N)
    (hh : bmHub (addrAt p index) = 1) (hi1 : 1 ≤ i) (hi2 : i < N)
    (hno : bmParent (addrAt p i) ≠ bmAddress (addrAt p index)) (hfuel : N - i ≤ f) :
    ∃ q, freeChildren self f p index i = some q := by
  induction f generalizing p i with
  | zero => omega
  | succ n ih =>
    unfold freeChildren
    by_cases hnext : FindChildIndex p (addrAt p index) i = 0
    · exact ⟨p, by simp only [hnext, if_true]⟩
    · simp only [hnext, if_false]
      obtain ⟨f1, f2, f3, f4, -⟩ := FindChildIndex_spec p _ i _ rfl hnext
      rw [if_neg (by omega)] at f1
      have hgt : i < FindChildIndex p (addrAt p index) i := by
        rcases Nat.lt_or_ge i (FindChildIndex p (addrAt p index) i) with e | e
        · exact e
        · have e2 : FindChildIndex p (addrAt p index) i = i := by omega
          rw [e2] at f4
          exact absurd f4 hno
      have hloc := hf.1 index hidx hh
      have hne : addrAt p (FindChildIndex p (addrAt p index) i) ≠ 0 := by
        intro e
        rw [e] at f4
        exact hloc f4.symm
      have hrk := hf.2 _ index f2 hidx hne hh f4
      obtain ⟨q1, hs, c1, hz, fr1⟩ := hself p _ hf hN f2 hrk
      rw [hs]
      simp only
      have hkeep : addrAt q1 index = addrAt p index := by
        by_contra e
        have := fr1 index e
        omega
      apply ih q1 _ (Forest_shrink rank p q1 hf c1.2.1) (by rw [c1.1]; exact hN)
        (by rw [hkeep]; exact hh) f2 (by omega)
      · rw [hz, hkeep]
        exact fun e => hloc e.symm
      · omega

/-- The loop over the children, entered at index 1 as in the source. -/
theorem freeChildren_returns (rank : Nat → Nat) (N index : Nat)
    (self : AddressPoolImpl → Nat → Option AddressPoolImpl)
    (hself : ∀ p i, Forest rank p → MAX_DEVICES_ALLOWED p = N → 1 ≤ i →
      rank i < rank index → ∃ q, self p i = some q ∧ Cascaded p q ∧ addrAt q i = 0 ∧
        ∀ j, addrAt q j ≠ addrAt p j → rank j ≤ rank i)
    (hidx : 1 ≤ index) (f : Nat) (p : AddressPoolImpl)
    (hf : Forest rank p) (hN : MAX_DEVICES_ALLOWED p = N)
    (hh : bmHub (addrAt p index) = 1) (hfuel : N + 1 ≤ f) :
    ∃ q, freeChildren self f p index 1 = some q := by
  obtain ⟨n, rfl⟩ : ∃ n, f = n + 1 := ⟨f - 1, by omega⟩
  unfold freeChildren
  by_cases hnext : FindChildIndex p (addrAt p index) 1 = 0
  · exact ⟨p, by simp only [hnext, if_true]⟩
  · simp only [hnext, if_false]
    obtain ⟨-, f2, f3, f4, -⟩ := FindChildIndex_spec p _ 1 _ rfl hnext
    have hloc := hf.1 index hidx hh
    have hne : addrAt p (FindChildIndex p (addrAt p index) 1) ≠ 0 := by
      intro e
      rw [e] at f4
      exact hloc f4.symm
    have hrk := hf.2 _ index f2 hidx hne hh f4
    obtain ⟨q1, hs, c1, hz, fr1⟩ := hself p _ hf hN f2 hrk
    rw [hs]
    simp only
    have hkeep : addrAt q1 index = addrAt p index := by
      by_contra e
      have := fr1 index e
      omega
    apply freeChildren_returns_from rank N index self hself hidx n q1 _
      (Forest_shrink rank p q1 hf c1.2.1) (by rw [c1.1]; exact hN)
      (by rw [hkeep]; exact hh) f2 (by omega)
    · rw [hz, hkeep]
      exact fun e => hloc e.symm
    · omega

/-- On a forest `FreeAddressByIndex(index)` returns within a budget of
`rank index + MAX_DEVICES_ALLOWED + 2` steps. -/
theorem FreeAddressByIndex_returns (rank : Nat → Nat) (r : Nat) :
    ∀ (n : Nat) (p : AddressPoolImpl) (index : Nat), Forest rank p → rank index ≤ r →
      r + MAX_DEVICES_ALLOWED p + 2 ≤ n → ∃ q, FreeAddressByIndex n p index = some q := by
  induction r using Nat.strong_induction_on with
  | _ r ih =>
    intro n p index hf hr hn
    obtain ⟨m, rfl⟩ : ∃ m, n = m + 1 := ⟨n - 1, by omega⟩
    unfold FreeAddressByIndex
    by_cases h0 : index = 0
    · exact ⟨p, by rw [if_pos h0]⟩
    · rw [if_neg h0]
      by_cases hh : bmHub (addrAt p index) = 1
      · rw [if_pos hh]
        have hloop := freeChildren_returns rank (MAX_DEVICES_ALLOWED p) index
          (FreeAddressByIndex m)
          (fun a i fa hN hi hrk => by
            obtain ⟨q, hq⟩ := ih (rank i) (by omega) m a i fa (le_refl _) (by rw [hN]; omega)
            obtain ⟨c, hfree⟩ := FreeAddressByIndex_Cascaded m a i q hq
            refine ⟨q, hq, c, ?_, FreeAddressByIndex_frame rank m a i q fa hq⟩
            unfold addrAt
            rw [hfree (by omega)]
            rfl)
          (by omega) m p hf rfl hh (by omega)
        obtain ⟨q1, hq1⟩ := hloop
        rw [hq1]
        exact ⟨_, rfl⟩
      · rw [if_neg hh]
        exact ⟨_, rfl⟩

/-! ## Freeing -/

theorem FreeAddressByIndex_hubBelowRootHub (fuel : Nat) :
    FreeAddressByIndex fuel hubBelowRootHub 2 = none := by
  induction fuel with
  | zero => rfl
  | succ n ih =>
    have hhub : bmHub (addrAt hubBelowRootHub 2) = 1 := by decide
    have hloop : freeChildren (FreeAddressByIndex n) n hubBelowRootHub 2 1 = none := by
      cases n with
      | zero => rfl
      | succ m =>
        have hchild : FindChildIndex hubBelowRootHub (addrAt hubBelowRootHub 2) 1 = 2 := by
          decide
        unfold freeChildren
        simp only [hchild, ih]
        rfl
    unfold FreeAddressByIndex
    simp only [hhub, hloop]
    rfl

/-- C5: `FreeAddress` does not terminate on the pool reached by attaching the
root hub (0x41) and a hub below it (0x49). The hub 0x49 has local address 1
and parent field 1, so `FindChildIndex` returns its own index and
`FreeAddressByIndex` calls itself with the same index and the same table: no
budget of steps is enough. -/
theorem FreeAddress_diverges (fuel : Nat) :
    (allocSeq (freshPool 3) [⟨0, true, 0, 0⟩, ⟨0x41, true, 0, 0⟩]).1 = [0x41, 0x49] ∧
      FreeAddress fuel hubBelowRootHub 0x49 = none := by
  refine ⟨by decide, ?_⟩
  have hidx : FindAddressIndex hubBelowRootHub 0x49 = 2 := by decide
  unfold FreeAddress
  rw [if_neg (by decide), hidx]
  exact FreeAddressByIndex_hubBelowRootHub fuel

theorem nestedHubs_Forest : Forest nestedHubsRank nestedHubs := by
  have hmax : MAX_DEVICES_ALLOWED nestedHubs = 7 := by decide
  refine ⟨?_, ?_⟩
  · intro t _ hh
    by_cases ht : t < 7
    · interval_cases t <;> revert hh <;> decide
    · rw [addrAt_of_MAX_le nestedHubs t (by omega)] at hh
      exact absurd hh (by decide)
  · intro s t h1 h2 hne hh
    by_cases hs : s < 7
    · by_cases ht : t < 7
      · interval_cases s <;> interval_cases t <;> revert hne hh <;> decide
      · rw [addrAt_of_MAX_le nestedHubs t (by omega)] at hh
        exact absurd hh (by decide)
    · exact absurd (addrAt_of_MAX_le nestedHubs s (by omega)) hne

/-- C6: let `h` be a hub address other than 0x41 and `k` the lowest index from
1 on whose entry holds `h`. Once `FreeAddress(h)` has returned, entry `k` is
free (address 0, class 0, `epinfo = &dev0ep`); no entry from index 1 on holds a
non-zero address whose parent field is the local address of `h`; and the same
is true of the local address of every hub that was freed on the way, that is
of every entry that held a hub address before the call and is free after it.
The call does return, within `rank k + MAX_DEVICES_ALLOWED + 2` steps, when
the hub entries of the table form a forest. -/
theorem FreeAddress_hub_cascade (p : AddressPoolImpl) (h k : Nat)
    (hhub : bmHub h = 1) (hroot : h ≠ 0x41)
    (hk1 : 1 ≤ k) (hk2 : k < MAX_DEVICES_ALLOWED p) (hk3 : addrAt p k = h)
    (hlow : ∀ j, 1 ≤ j → j < k → addrAt p j ≠ h) :
    (∀ fuel q, FreeAddress fuel p h = some q →
      entryAt q k = freeEntry ∧
        (∀ s, 1 ≤ s → addrAt q s ≠ 0 → bmParent (addrAt q s) ≠ bmAddress h) ∧
        ∀ j, 1 ≤ j → bmHub (addrAt p j) = 1 → addrAt q j = 0 →
          ∀ s, 1 ≤ s → addrAt q s ≠ 0 →
            bmParent (addrAt q s) ≠ bmAddress (addrAt p j)) ∧
      ∀ rank, Forest rank p → ∀ fuel, rank k + MAX_DEVICES_ALLOWED p + 2 ≤ fuel →
        ∃ q, FreeAddress fuel p h = some q := by
  have hidx : FindAddressIndex p h = k := FindAddressIndex_found p h k hk1 hk2 hk3 hlow
  refine ⟨?_, ?_⟩
  · intro fuel q hret
    unfold FreeAddress at hret
    rw [if_neg hroot, hidx] at hret
    obtain ⟨c, hfree⟩ := FreeAddressByIndex_Cascaded fuel p k q hret
    have hk0 : k ≠ 0 := by omega
    have hq : addrAt q k = 0 := by
      unfold addrAt
      rw [hfree hk0]
      rfl
    refine ⟨hfree hk0, ?_, c.2.2⟩
    intro s hs hne
    have := c.2.2 k hk1 (by rw [hk3]; exact hhub) hq s hs hne
    rw [hk3] at this
    exact this
  · intro rank hf fuel hfuel
    unfold FreeAddress
    rw [if_neg hroot, hidx]
    exact FreeAddressByIndex_returns rank (rank k) fuel p k hf (le_refl _) hfuel

theorem FreeAddress_hub_cascade_witness :
    (entryAt nestedHubsFreed 2 = freeEntry ∧
      (∀ s, 1 ≤ s → addrAt nestedHubsFreed s ≠ 0 →
        bmParent (addrAt nestedHubsFreed s) ≠ bmAddress 0x4A) ∧
      ∀ j, 1 ≤ j → bmHub (addrAt nestedHubs j) = 1 → addrAt nestedHubsFreed j = 0 →
        ∀ s, 1 ≤ s → addrAt nestedHubsFreed s ≠ 0 →
          bmParent (addrAt nestedHubsFreed s) ≠ bmAddress (addrAt nestedHubs j)) ∧
      ∃ q, FreeAddress 11 nestedHubs 0x4A = some q :=
  have hlow : ∀ j, 1 ≤ j → j < 2 → addrAt nestedHubs j ≠ 0x4A := fun j h1 h2 => by
    have : j = 1 := by omega
    subst this; decide
  ⟨(FreeAddress_hub_cascade nestedHubs 0x4A 2 (by decide) (by decide) (by decide)
      (by decide) (by decide) hlow).1 4 nestedHubsFreed (by decide),
    (FreeAddress_hub_cascade nestedHubs 0x4A 2 (by decide) (by decide) (by decide)
      (by decide) (by decide) hlow).2 nestedHubsRank nestedHubs_Forest 11 (by decide)⟩

/-- C7: `FreeAddress(0x41)` returns for every pool state; afterwards every
entry from index 1 on has address 0, device class 0 and `epinfo = &dev0ep`, and
`hubCounter` is 0. Nothing is asked of the table before the call. -/
theorem FreeAddress_root_hub (fuel : Nat) (p : AddressPoolImpl) :
    ∃ q, FreeAddress fuel p 0x41 = some q ∧ q.hubCounter = 0 ∧
      MAX_DEVICES_ALLOWED q = MAX_DEVICES_ALLOWED p ∧
      ∀ i, 1 ≤ i → i < MAX_DEVICES_ALLOWED p →
        (entryAt q i).address = 0 ∧ (entryAt q i).devclass = 0 ∧
          (entryAt q i).epinfo = EpInfoPtr.dev0ep := by
  refine ⟨InitAllAddresses p, by simp [FreeAddress], rfl, MAX_InitAllAddresses p, ?_⟩
  intro i h1 h2
  rw [entryAt_InitAllAddresses, if_pos ⟨h1, h2⟩]
  exact ⟨rfl, rfl, rfl⟩

/-- C8, as stated, fails: the pool reached by attaching one device to the root
holds 0x41 in no entry, yet `FreeAddress(0x41)` clears entry 1. -/
theorem FreeAddress_absent_fails :
    Reachable oneRootDevice ∧
      (∀ j, 1 ≤ j → j < MAX_DEVICES_ALLOWED oneRootDevice → addrAt oneRootDevice j ≠ 0x41) ∧
      addrAt oneRootDevice 1 = 1 ∧
      ∀ fuel, ∃ q, FreeAddress fuel oneRootDevice 0x41 = some q ∧ addrAt q 1 = 0 := by
  refine ⟨?_, ?_, by decide, fun fuel => ⟨InitAllAddresses oneRootDevice, ?_, by decide⟩⟩
  · exact Reachable.alloc _ 0 false 0 0
      (Reachable.construct 0x40 0x10 (rawPool 2) (by decide) (by decide))
      (by decide) (by decide) (by decide)
  · intro j h1 h2
    have h3 : MAX_DEVICES_ALLOWED oneRootDevice = 2 := by decide
    have : j = 1 := by omega
    subst this; decide
  · simp [FreeAddress]

/-- C8, amended: for every pool and every address other than 0x41 that no entry
from index 1 on holds, `FreeAddress` returns and leaves the whole state (every
entry and `hubCounter`) as it was. -/
theorem FreeAddress_absent (fuel : Nat) (p : AddressPoolImpl) (addr : Nat)
    (hroot : addr ≠ 0x41)
    (habs : ∀ j, 1 ≤ j → j < MAX_DEVICES_ALLOWED p → addrAt p j ≠ addr) :
    FreeAddress (fuel + 1) p addr = some p := by
  unfold FreeAddress
  rw [if_neg hroot, FindAddressIndex_absent p addr habs]
  rfl

theorem FreeAddress_absent_witness : FreeAddress (0 + 1) rootHubOnly 0x0A = some rootHubOnly :=
  FreeAddress_absent 0 rootHubOnly 0x0A (by decide) (fun j h1 h2 => by
    have h3 : MAX_DEVICES_ALLOWED rootHubOnly = 3 := by decide
    have : j = 1 ∨ j = 2 := by omega
    rcases this with h | h <;> subst h <;> decide)

/-! ## Counting and lookup -/

/-- C9: `GetNumDevices` returns 1 on every pool state, so it returns 1 and not
0 on a fresh pool of five entries, and 1 and not 2 after the root hub and one
device on its port 2 were attached. -/
theorem GetNumDevices_is_one :
    (∀ p, GetNumDevices p = 1) ∧ GetNumDevices (freshPool 5) = 1 ∧
      (allocSeq (freshPool 5) [⟨0, true, 0, 0⟩, ⟨0x41, false, 2, 0⟩]).1 = [0x41, 0x0A] ∧
      GetNumDevices (allocSeq (freshPool 5) [⟨0, true, 0, 0⟩, ⟨0x41, false, 2, 0⟩]).2 = 1 := by
  have h : ∀ p, GetNumDevices p = 1 := by
    intro p
    unfold GetNumDevices
    simp only [foldl_keep]
  exact ⟨h, h _, by decide, h _⟩

/-- C10: for a non-zero address `a`, `GetUsbDevicePtr(a)` is the pointer to the
lowest-index entry from index 1 on whose address is `a` when there is one, is
`NULL` when no such entry holds `a`, and is never the pointer to entry 0. -/
theorem GetUsbDevicePtr_nonzero (p : AddressPoolImpl) (a : Nat) (ha : a ≠ 0) :
    (∀ k, 1 ≤ k → k < MAX_DEVICES_ALLOWED p → addrAt p k = a →
        (∀ j, 1 ≤ j → j < k → addrAt p j ≠ a) → GetUsbDevicePtr p a = some k) ∧
      ((∀ j, 1 ≤ j → j < MAX_DEVICES_ALLOWED p → addrAt p j ≠ a) →
        GetUsbDevicePtr p a = none) ∧
      GetUsbDevicePtr p a ≠ some 0 := by
  refine ⟨?_, ?_, ?_⟩
  · intro k h1 h2 h3 h4
    have hidx := FindAddressIndex_found p a k h1 h2 h3 h4
    unfold GetUsbDevicePtr
    rw [if_neg ha]
    simp only [hidx]
    rw [if_neg (by omega)]
  · intro h
    unfold GetUsbDevicePtr
    rw [if_neg ha]
    simp only [FindAddressIndex_absent p a h, if_true]
  · unfold GetUsbDevicePtr
    rw [if_neg ha]
    by_cases h0 : FindAddressIndex p a = 0
    · simp [h0]
    · simp [h0]

theorem GetUsbDevicePtr_nonzero_witness :
    GetUsbDevicePtr nestedHubs 0x11 = some 3 ∧ GetUsbDevicePtr nestedHubs 0x7F = none ∧
      GetUsbDevicePtr nestedHubs 0x11 ≠ some 0 :=
  ⟨(GetUsbDevicePtr_nonzero nestedHubs 0x11 (by decide)).1 3 (by decide) (by decide)
      (by decide) (fun j h1 h2 => by
        have : j = 1 ∨ j = 2 := by omega
        rcases this with h | h <;> subst h <;> decide),
    by decide, (GetUsbDevicePtr_nonzero nestedHubs 0x11 (by decide)).2.2⟩

/-! ## The address byte -/

set_option maxRecDepth 100000 in
theorem masks_select_fields :
    ∀ b, b < 256 → b &&& bmUSB_DEV_ADDR_ADDRESS = bmAddress b ∧
      b &&& bmUSB_DEV_ADDR_PARENT = 8 * bmParent b ∧
      b &&& bmUSB_DEV_ADDR_HUB = 64 * bmHub b := by
  decide

/-- C13: the layout of the address byte is lossless. Decoding a byte into its
four fields (bits 0-2, 3-5, 6 and 7) and encoding them again gives the byte;
encoding any four values and decoding gives each value truncated to the width
of its field (3, 3, 1, 1 bits), so values in range come back unchanged; and
the masks 0x07, 0x38 and 0x40 select the local address, the parent and the hub
field in place. -/
theorem UsbDeviceAddress_lossless :
    (∀ b, b < 256 → devAddress (bmAddress b) (bmParent b) (bmHub b) (bmReserved b) = b) ∧
      (∀ a p h r, bmAddress (devAddress a p h r) = a % 8 ∧
        bmParent (devAddress a p h r) = p % 8 ∧ bmHub (devAddress a p h r) = h % 2 ∧
        bmReserved (devAddress a p h r) = r % 2) ∧
      (∀ a p h r, a < 8 → p < 8 → h < 2 → r < 2 →
        bmAddress (devAddress a p h r) = a ∧ bmParent (devAddress a p h r) = p ∧
        bmHub (devAddress a p h r) = h ∧ bmReserved (devAddress a p h r) = r ∧
        devAddress a p h r < 256) ∧
      (∀ b, b < 256 → b &&& bmUSB_DEV_ADDR_ADDRESS = bmAddress b ∧
        b &&& bmUSB_DEV_ADDR_PARENT = 8 * bmParent b ∧
        b &&& bmUSB_DEV_ADDR_HUB = 64 * bmHub b) := by
  refine ⟨?_, ?_, ?_, masks_select_fields⟩
  · intro b hb
    unfold devAddress bmAddress bmParent bmHub bmReserved
    omega
  · intro a p h r
    exact ⟨bmAddress_devAddress a p h r, bmParent_devAddress a p h r,
      bmHub_devAddress a p h r, bmReserved_devAddress a p h r⟩
  · intro a p h r ha hp hh hr
    rw [bmAddress_devAddress, bmParent_devAddress, bmHub_devAddress, bmReserved_devAddress]
    refine ⟨by omega, by omega, by omega, by omega, ?_⟩
    unfold devAddress
    omega

theorem UsbDeviceAddress_lossless_witness :
    devAddress (bmAddress 0x4A) (bmParent 0x4A) (bmHub 0x4A) (bmReserved 0x4A) = 0x4A ∧
      (bmAddress (devAddress 2 1 1 0) = 2 ∧ bmParent (devAddress 2 1 1 0) = 1 ∧
        bmHub (devAddress 2 1 1 0) = 1 ∧ bmReserved (devAddress 2 1 1 0) = 0 ∧
        devAddress 2 1 1 0 < 256) ∧
      (0x4A &&& bmUSB_DEV_ADDR_ADDRESS = bmAddress 0x4A ∧
        0x4A &&& bmUSB_DEV_ADDR_PARENT = 8 * bmParent 0x4A ∧
        0x4A &&& bmUSB_DEV_ADDR_HUB = 64 * bmHub 0x4A) :=
  ⟨UsbDeviceAddress_lossless.1 0x4A (by decide),
    UsbDeviceAddress_lossless.2.2.1 2 1 1 0 (by decide) (by decide) (by decide) (by decide),
    UsbDeviceAddress_lossless.2.2.2 0x4A (by decide)⟩

/-! ## Frame of `AllocAddress` -/

/-- The state after a call of `AllocAddress` that passes the range guard and
finds a free entry: the address of that entry is written, and `hubCounter` is
advanced for a hub below a non-zero parent. -/
theorem AllocAddress_state (p : AddressPoolImpl) (parent : Nat) (is_hub : Bool)
    (port raw : Nat) (hg : ¬ (parent > 127 ∨ port > 7)) (h : FindAddressIndex p 0 ≠ 0) :
    (AllocAddress p parent is_hub port raw).2 =
      setAddrAt
        { p with hubCounter :=
            if parent ≠ 0 ∧ is_hub = true then (p.hubCounter + 1) % 256 else p.hubCounter }
        (FindAddressIndex p 0) (allocByte p parent is_hub port raw) := by
  unfold AllocAddress allocByte
  rw [if_neg hg]
  simp only [h, if_false]
  by_cases hp : parent = 0
  · simp only [hp, if_true, ne_eq, not_true_eq_false, false_and, if_false]
  · simp only [hp, if_false, ne_eq, not_false_eq_true, true_and]
    cases is_hub
    · simp only [Bool.false_eq_true, if_false, deviceByte_eq]
    · simp only [if_true, hubByte_eq]

theorem AllocAddress_failed (p : AddressPoolImpl) (parent : Nat) (is_hub : Bool)
    (port raw : Nat) (h : (parent > 127 ∨ port > 7) ∨ FindAddressIndex p 0 = 0) :
    AllocAddress p parent is_hub port raw = (0, p) := by
  rcases h with h | h
  · exact AllocAddress_guard p parent is_hub port raw h
  · exact AllocAddress_full p parent is_hub port raw h

/-- C18: `AllocAddress` leaves `hubCounter` as it was unless the request is a
hub request and the call returns a non-zero address: a call that returns 0 and
a device request never change the counter. -/
theorem AllocAddress_hubCounter_frame (p : AddressPoolImpl) (parent : Nat) (is_hub : Bool)
    (port raw : Nat)
    (h : is_hub = false ∨ (AllocAddress p parent is_hub port raw).1 = 0) :
    (AllocAddress p parent is_hub port raw).2.hubCounter = p.hubCounter := by
  by_cases hf : (parent > 127 ∨ port > 7) ∨ FindAddressIndex p 0 = 0
  · rw [AllocAddress_failed p parent is_hub port raw hf]
  · have hg : ¬ (parent > 127 ∨ port > 7) := fun e => hf (Or.inl e)
    have hi : FindAddressIndex p 0 ≠ 0 := fun e => hf (Or.inr e)
    rw [AllocAddress_state p parent is_hub port raw hg hi]
    have hdev : is_hub = false ∨ parent = 0 := by
      rcases h with h | h
      · exact Or.inl h
      · rw [AllocAddress_value p parent is_hub port raw hg hi] at h
        by_cases hp : parent = 0
        · exact Or.inr hp
        · left
          cases is_hub
          · rfl
          · exfalso
            unfold allocByte at h
            rw [if_neg hp] at h
            simp only [if_true, devAddress_eq_zero_iff] at h
            exact absurd h.2.2.1 (by decide)
    have hc : ¬ (parent ≠ 0 ∧ is_hub = true) := by
      rintro ⟨h1, h2⟩
      rcases hdev with e | e
      · rw [e] at h2; exact absurd h2 (by decide)
      · exact h1 e
    simp only [setAddrAt, hc, if_false]

theorem AllocAddress_hubCounter_frame_witness :
    (AllocAddress rootHubOnly 0x41 false 2 0).2.hubCounter = rootHubOnly.hubCounter :=
  AllocAddress_hubCounter_frame rootHubOnly 0x41 false 2 0 (Or.inl rfl)

theorem entryAt_with_hubCounter (p : AddressPoolImpl) (c j : Nat) :
    entryAt { p with hubCounter := c } j = entryAt p j := rfl

/-- C19: `AllocAddress` changes no field of the table other than the address
of the lowest-index free entry `k` (from index 1 on), which it sets to the
value it returns (0, the value the entry had, when the range guard rejects the
call); the class and `epinfo` of entry `k` and every other entry are the same
before and after, so no entry moves; with no free entry the table is as it
was. -/
theorem AllocAddress_table_frame (p : AddressPoolImpl) (parent : Nat) (is_hub : Bool)
    (port raw : Nat) :
    MAX_DEVICES_ALLOWED (AllocAddress p parent is_hub port raw).2 = MAX_DEVICES_ALLOWED p ∧
      (∀ k, 1 ≤ k → k < MAX_DEVICES_ALLOWED p → addrAt p k = 0 →
        (∀ j, 1 ≤ j → j < k → addrAt p j ≠ 0) →
        entryAt (AllocAddress p parent is_hub port raw).2 k =
            { entryAt p k with address := (AllocAddress p parent is_hub port raw).1 } ∧
          ∀ j, j ≠ k → entryAt (AllocAddress p parent is_hub port raw).2 j = entryAt p j) ∧
      ((∀ j, 1 ≤ j → j < MAX_DEVICES_ALLOWED p → addrAt p j ≠ 0) →
        (AllocAddress p parent is_hub port raw).2.thePool = p.thePool) := by
  refine ⟨AllocAddress_MAX p parent is_hub port raw, ?_, ?_⟩
  · intro k hk1 hk2 hk3 hlow
    have hidx : FindAddressIndex p 0 = k := FindAddressIndex_found p 0 k hk1 hk2 hk3 hlow
    by_cases hg : parent > 127 ∨ port > 7
    · rw [AllocAddress_guard p parent is_hub port raw hg]
      refine ⟨?_, fun j _ => rfl⟩
      have h0 : (entryAt p k).address = 0 := hk3
      simp only
      rw [← h0]
    · have hi : FindAddressIndex p 0 ≠ 0 := by omega
      rw [AllocAddress_value p parent is_hub port raw hg hi,
        AllocAddress_state p parent is_hub port raw hg hi, hidx]
      refine ⟨?_, ?_⟩
      · rw [entryAt_setAddrAt, if_pos ⟨rfl, hk2⟩]
        rfl
      · intro j hj
        rw [entryAt_setAddrAt, if_neg (fun e => hj e.1.symm)]
        rfl
  · intro hfull
    rw [AllocAddress_full p parent is_hub port raw (FindAddressIndex_absent p 0 hfull)]

theorem AllocAddress_table_frame_witness :
    entryAt (AllocAddress nestedHubsFreed 0x41 false 3 0).2 2 =
        { entryAt nestedHubsFreed 2 with
          address := (AllocAddress nestedHubsFreed 0x41 false 3 0).1 } ∧
      ∀ j, j ≠ 2 →
        entryAt (AllocAddress nestedHubsFreed 0x41 false 3 0).2 j = entryAt nestedHubsFreed j :=
  (AllocAddress_table_frame nestedHubsFreed 0x41 false 3 0).2.1 2 (by decide) (by decide)
    (by decide) (fun j h1 h2 => by
      have : j = 1 := by omega
      subst this; decide)

/-! ## Frame of `FreeAddress` -/

/-- C20: let `a` be an address with the hub flag clear and `k` the lowest index
from 1 on whose entry holds `a`. `FreeAddress(a)` returns; afterwards entry `k`
has address 0, class 0 and `epinfo = &dev0ep`, and every other entry and
`hubCounter` are as they were. -/
theorem FreeAddress_device (fuel : Nat) (p : AddressPoolImpl) (a k : Nat)
    (hhub : bmHub a = 0) (hk1 : 1 ≤ k) (hk2 : k < MAX_DEVICES_ALLOWED p)
    (hk3 : addrAt p k = a) (hlow : ∀ j, 1 ≤ j → j < k → addrAt p j ≠ a) :
    ∃ q, FreeAddress (fuel + 1) p a = some q ∧
      MAX_DEVICES_ALLOWED q = MAX_DEVICES_ALLOWED p ∧
      (entryAt q k).address = 0 ∧ (entryAt q k).devclass = 0 ∧
      (entryAt q k).epinfo = EpInfoPtr.dev0ep ∧
      (∀ j, j ≠ k → entryAt q j = entryAt p j) ∧ q.hubCounter = p.hubCounter := by
  have hidx : FindAddressIndex p a = k := FindAddressIndex_found p a k hk1 hk2 hk3 hlow
  have hroot : a ≠ 0x41 := by
    intro e
    rw [e] at hhub
    exact absurd hhub (by decide)
  have hnh : ¬ bmHub (addrAt p k) = 1 := by rw [hk3, hhub]; decide
  refine ⟨InitEntry p k, ?_, MAX_InitEntry p k, ?_, ?_, ?_, ?_, rfl⟩
  · unfold FreeAddress
    rw [if_neg hroot, hidx]
    unfold FreeAddressByIndex
    rw [if_neg (by omega), if_neg hnh]
  · rw [entryAt_InitEntry, if_pos ⟨rfl, hk2⟩]; rfl
  · rw [entryAt_InitEntry, if_pos ⟨rfl, hk2⟩]; rfl
  · rw [entryAt_InitEntry, if_pos ⟨rfl, hk2⟩]; rfl
  · intro j hj
    rw [entryAt_InitEntry, if_neg (fun e => hj e.1.symm)]

theorem FreeAddress_device_witness :
    ∃ q, FreeAddress (0 + 1) nestedHubs 0x11 = some q ∧
      MAX_DEVICES_ALLOWED q = MAX_DEVICES_ALLOWED nestedHubs ∧
      (entryAt q 3).address = 0 ∧ (entryAt q 3).devclass = 0 ∧
      (entryAt q 3).epinfo = EpInfoPtr.dev0ep ∧
      (∀ j, j ≠ 3 → entryAt q j = entryAt nestedHubs j) ∧
      q.hubCounter = nestedHubs.hubCounter :=
  FreeAddress_device 0 nestedHubs 0x11 3 (by decide) (by decide) (by decide) (by decide)
    (fun j h1 h2 => by
      have : j = 1 ∨ j = 2 := by omega
      rcases this with h | h <;> subst h <;> decide)

/-! ## The reserved entry 0 -/

theorem foldl_InitEntry_dev0ep (n s : Nat) (p : AddressPoolImpl) :
    ((List.range' s n).foldl InitEntry p).dev0ep = p.dev0ep := by
  induction n generalizing s p with
  | zero => rfl
  | succ n ih => rw [List.range'_succ, List.foldl_cons, ih]; rfl

theorem InitAllAddresses_dev0ep (p : AddressPoolImpl) :
    (InitAllAddresses p).dev0ep = p.dev0ep :=
  foldl_InitEntry_dev0ep _ 1 p

/-- The loop over the children leaves entry 0, `dev0ep` and the size of the
table alone when the recursive calls do. -/
theorem freeChildren_keeps_zero (self : AddressPoolImpl → Nat → Option AddressPoolImpl)
    (hself : ∀ a i b, self a i = some b →
      entryAt b 0 = entryAt a 0 ∧ b.dev0ep = a.dev0ep ∧
        MAX_DEVICES_ALLOWED b = MAX_DEVICES_ALLOWED a)
    (fuel : Nat) (p : AddressPoolImpl) (index i : Nat) (q : AddressPoolImpl)
    (h : freeChildren self fuel p index i = some q) :
    entryAt q 0 = entryAt p 0 ∧ q.dev0ep = p.dev0ep ∧
      MAX_DEVICES_ALLOWED q = MAX_DEVICES_ALLOWED p := by
  induction fuel generalizing p i with
  | zero => simp [freeChildren] at h
  | succ n ih =>
    unfold freeChildren at h
    by_cases hnext : FindChildIndex p (addrAt p index) i = 0
    · simp only [hnext, if_true, Option.some.injEq] at h
      subst h
      exact ⟨rfl, rfl, rfl⟩
    · simp only [hnext, if_false] at h
      cases hs : self p (FindChildIndex p (addrAt p index) i) with
      | none => rw [hs] at h; simp at h
      | some q1 =>
        rw [hs] at h
        simp only at h
        obtain ⟨a1, a2, a3⟩ := hself _ _ _ hs
        obtain ⟨b1, b2, b3⟩ := ih q1 _ h
        exact ⟨b1.trans a1, b2.trans a2, b3.trans a3⟩

theorem decHubCounter_dev0ep (p : AddressPoolImpl) (index : Nat) :
    (decHubCounter p index).dev0ep = p.dev0ep := by
  unfold decHubCounter
  split <;> rfl

theorem entryAt_decHubCounter (p : AddressPoolImpl) (index j : Nat) :
    entryAt (decHubCounter p index) j = entryAt p j := by
  unfold decHubCounter
  split <;> rfl

/-- `FreeAddressByIndex` leaves entry 0, `dev0ep` and the size of the table
alone. -/
theorem FreeAddressByIndex_keeps_zero (fuel : Nat) (p : AddressPoolImpl) (index : Nat)
    (q : AddressPoolImpl) (h : FreeAddressByIndex fuel p index = some q) :
    entryAt q 0 = entryAt p 0 ∧ q.dev0ep = p.dev0ep ∧
      MAX_DEVICES_ALLOWED q = MAX_DEVICES_ALLOWED p := by
  induction fuel generalizing p index q with
  | zero => simp [FreeAddressByIndex] at h
  | succ n ih =>
    unfold FreeAddressByIndex at h
    by_cases h0 : index = 0
    · simp only [h0, if_true, Option.some.injEq] at h
      subst h
      exact ⟨rfl, rfl, rfl⟩
    · rw [if_neg h0] at h
      by_cases hh : bmHub (addrAt p index) = 1
      · rw [if_pos hh] at h
        cases hl : freeChildren (FreeAddressByIndex n) n p index 1 with
        | none => rw [hl] at h; simp at h
        | some q1 =>
          rw [hl] at h
          simp only [Option.some.injEq] at h
          subst h
          obtain ⟨a1, a2, a3⟩ := freeChildren_keeps_zero (FreeAddressByIndex n)
            (fun a i b e => ih a i b e) n p index 1 q1 hl
          refine ⟨?_, ?_, ?_⟩
          · rw [entryAt_InitEntry, if_neg (fun e => h0 e.1), entryAt_decHubCounter]
            exact a1
          · exact (decHubCounter_dev0ep q1 index).trans a2
          · rw [MAX_InitEntry, MAX_decHubCounter]; exact a3
      · rw [if_neg hh] at h
        simp only [Option.some.injEq] at h
        subst h
        refine ⟨?_, rfl, MAX_InitEntry p index⟩
        rw [entryAt_InitEntry, if_neg (fun e => h0 e.1)]

theorem construct_entry_zero (s r : Nat) (mem : AddressPoolImpl)
    (h : 1 ≤ MAX_DEVICES_ALLOWED mem) : entryAt (construct s r mem) 0 = freeEntry := by
  unfold construct
  rw [entryAt_InitAllAddresses, if_neg (by omega)]
  obtain ⟨d, c, l⟩ := mem
  cases l with
  | nil => simp [MAX_DEVICES_ALLOWED] at h
  | cons x xs => simp [entryAt, setAddrAt, InitEntry, freeEntry]

theorem construct_dev0ep (s r : Nat) (mem : AddressPoolImpl) :
    (construct s r mem).dev0ep =
      { mem.dev0ep with epAddr := 0, MaxPktSize := 8, sndToggle := s, rcvToggle := r } := by
  unfold construct
  rw [InitAllAddresses_dev0ep]
  rfl

theorem construct_hubCounter (s r : Nat) (mem : AddressPoolImpl) :
    (construct s r mem).hubCounter = 0 := rfl

/-- The facts about entry 0 and `dev0ep` that every call keeps. -/
theorem Reachable_entry_zero (p : AddressPoolImpl) (h : Reachable p) :
    entryAt p 0 = freeEntry ∧ p.dev0ep.MaxPktSize = 8 ∧ 1 ≤ MAX_DEVICES_ALLOWED p := by
  induction h with
  | construct s r mem h1 h2 =>
    refine ⟨construct_entry_zero s r mem h1, ?_, ?_⟩
    · rw [construct_dev0ep]
    · rw [construct_MAX]; exact h1
  | alloc p parent is_hub port raw hp h1 h2 h3 ih =>
    obtain ⟨i1, i2, i3⟩ := ih
    by_cases hf : (parent > 127 ∨ port > 7) ∨ FindAddressIndex p 0 = 0
    · rw [AllocAddress_failed p parent is_hub port raw hf]
      exact ⟨i1, i2, i3⟩
    · have hg : ¬ (parent > 127 ∨ port > 7) := fun e => hf (Or.inl e)
      have hi : FindAddressIndex p 0 ≠ 0 := fun e => hf (Or.inr e)
      refine ⟨?_, ?_, ?_⟩
      · rw [AllocAddress_state p parent is_hub port raw hg hi, entryAt_setAddrAt,
          if_neg (fun e => hi e.1)]
        exact i1
      · rw [AllocAddress_state p parent is_hub port raw hg hi]
        exact i2
      · rw [AllocAddress_MAX]; exact i3
  | free fuel p q addr hp h1 h2 ih =>
    obtain ⟨i1, i2, i3⟩ := ih
    unfold FreeAddress at h2
    by_cases hr : addr = 0x41
    · rw [if_pos hr] at h2
      simp only [Option.some.injEq] at h2
      subst h2
      refine ⟨?_, ?_, ?_⟩
      · rw [entryAt_InitAllAddresses, if_neg (by omega)]; exact i1
      · rw [InitAllAddresses_dev0ep]; exact i2
      · rw [MAX_InitAllAddresses]; exact i3
    · rw [if_neg hr] at h2
      obtain ⟨a1, a2, a3⟩ := FreeAddressByIndex_keeps_zero fuel p _ q h2
      exact ⟨a1.trans i1, by rw [a2]; exact i2, by rw [a3]; exact i3⟩

/-- C11: in every state reachable from construction by `AllocAddress` and
`FreeAddress` calls, the constructed pool included, entry 0 has address 0, its
`epinfo` is `&dev0ep`, `dev0ep.MaxPktSize` is 8, and `GetUsbDevicePtr(0)` is
the pointer to entry 0. -/
theorem Reachable_sentinel (p : AddressPoolImpl) (h : Reachable p) :
    addrAt p 0 = 0 ∧ (entryAt p 0).epinfo = EpInfoPtr.dev0ep ∧
      p.dev0ep.MaxPktSize = 8 ∧ GetUsbDevicePtr p 0 = some 0 ∧
      0 < MAX_DEVICES_ALLOWED p := by
  obtain ⟨h1, h2, h3⟩ := Reachable_entry_zero p h
  refine ⟨?_, ?_, h2, by simp [GetUsbDevicePtr], h3⟩
  · unfold addrAt; rw [h1]; rfl
  · rw [h1]; rfl

theorem Reachable_oneRootDevice : Reachable oneRootDevice :=
  Reachable.alloc _ 0 false 0 0
    (Reachable.construct 0x40 0x10 (rawPool 2) (by decide) (by decide))
    (by decide) (by decide) (by decide)

theorem Reachable_sentinel_witness :
    addrAt oneRootDevice 0 = 0 ∧ (entryAt oneRootDevice 0).epinfo = EpInfoPtr.dev0ep ∧
      oneRootDevice.dev0ep.MaxPktSize = 8 ∧ GetUsbDevicePtr oneRootDevice 0 = some 0 ∧
      0 < MAX_DEVICES_ALLOWED oneRootDevice :=
  Reachable_sentinel oneRootDevice Reachable_oneRootDevice

/-! ## Traversal -/

/-- The loop of `ForEachUsbDevice` over the indices `s .. s + n - 1`, entered
in state `q` with the calls `acc` already made. The calls it adds form an
ascending list `l` of indices of that range, the final state is the one the
visitor calls of `l` produce in turn, and an index of the range is in `l`
exactly when its address is non-zero in the state left by the calls made for
the indices below it. -/
theorem ForEachUsbDevice_loop (f : Nat → AddressPoolImpl → AddressPoolImpl) (n s : Nat)
    (acc : List Nat) (q : AddressPoolImpl) :
    ∃ l : List Nat,
      (List.range' s n).foldl
          (fun (st : List Nat × AddressPoolImpl) i =>
            if addrAt st.2 i ≠ 0 then (st.1 ++ [i], f i st.2) else st)
          (acc, q) = (acc ++ l, l.foldl (fun t i => f i t) q) ∧
        l.Pairwise (fun a b => a < b) ∧
        (∀ i ∈ l, s ≤ i ∧ i < s + n) ∧
        ∀ i, s ≤ i → i < s + n →
          (i ∈ l ↔
            addrAt ((l.filter (fun j => decide (j < i))).foldl (fun t j => f j t) q) i ≠ 0) := by
  induction n generalizing s acc q with
  | zero =>
    refine ⟨[], by simp, List.Pairwise.nil, by simp, ?_⟩
    intro i h1 h2
    omega
  | succ n ih =>
    rw [List.range'_succ, List.foldl_cons]
    by_cases h0 : addrAt q s ≠ 0
    · obtain ⟨l, e, hp, hr, hm⟩ := ih (s + 1) (acc ++ [s]) (f s q)
      refine ⟨s :: l, ?_, ?_, ?_, ?_⟩
      · simp only [h0, if_true, ne_eq, not_false_eq_true]
        rw [e]
        simp
      · rw [List.pairwise_cons]
        exact ⟨fun a ha => by have := (hr a ha).1; omega, hp⟩
      · intro i hi
        rcases List.mem_cons.mp hi with hi | hi
        · omega
        · have := hr i hi; omega
      · intro i h1 h2
        by_cases his : i = s
        · subst his
          have hnil : (i :: l).filter (fun j => decide (j < i)) = [] := by
            rw [List.filter_eq_nil_iff]
            intro a ha
            rcases List.mem_cons.mp ha with ha | ha
            · simp [ha]
            · have := (hr a ha).1
              simp; omega
          rw [hnil]
          simpa using h0
        · have hfil : (s :: l).filter (fun j => decide (j < i)) =
              s :: l.filter (fun j => decide (j < i)) := by
            rw [List.filter_cons, if_pos]
            simp; omega
          rw [hfil, List.foldl_cons, ← hm i (by omega) (by omega)]
          simp [his]
    · obtain ⟨l, e, hp, hr, hm⟩ := ih (s + 1) acc q
      refine ⟨l, ?_, hp, ?_, ?_⟩
      · simp only [h0, if_false]
        exact e
      · intro i hi
        have := hr i hi; omega
      · intro i h1 h2
        by_cases his : i = s
        · subst his
          have hnil : l.filter (fun j => decide (j < i)) = [] := by
            rw [List.filter_eq_nil_iff]
            intro a ha
            have := (hr a ha).1
            simp; omega
          rw [hnil]
          constructor
          · intro hi
            have := (hr i hi).1
            omega
          · intro hne
            exact absurd hne h0
        · exact hm i (by omega) (by omega)

/-- The loop of `ForEachUsbDevice` for a visitor that does not change the
address of an entry above the one it is given: the calls made are those for
the entries in use in the state `p` the traversal started from. -/
theorem ForEachUsbDevice_loop_stable (p : AddressPoolImpl)
    (f : Nat → AddressPoolImpl → AddressPoolImpl)
    (hf : ∀ i q j, i < j → addrAt (f i q) j = addrAt q j) (n s : Nat)
    (acc : List Nat) (q : AddressPoolImpl) (hq : ∀ j, s ≤ j → addrAt q j = addrAt p j) :
    ((List.range' s n).foldl
        (fun (st : List Nat × AddressPoolImpl) i =>
          if addrAt st.2 i ≠ 0 then (st.1 ++ [i], f i st.2) else st)
        (acc, q)).1 =
      acc ++ (List.range' s n).filter (fun i => decide (addrAt p i ≠ 0)) := by
  induction n generalizing s acc q with
  | zero => simp
  | succ n ih =>
    rw [List.range'_succ, List.foldl_cons, List.filter_cons]
    have hs : addrAt q s = addrAt p s := hq s (le_refl _)
    by_cases h0 : addrAt p s ≠ 0
    · have h1 : addrAt q s ≠ 0 := by rw [hs]; exact h0
      simp only [h1, h0, if_true, decide_True, ne_eq, not_false_eq_true]
      rw [ih (s + 1) (acc ++ [s]) _]
      · simp
      · intro j hj
        rw [hf s q j (by omega)]
        exact hq j (by omega)
    · have h1 : ¬ addrAt q s ≠ 0 := by rw [hs]; exact h0
      simp only [h1, h0, if_false, decide_False, Bool.false_eq_true]
      exact ih (s + 1) acc q (fun j hj => hq j (by omega))

/-- C12, as stated, fails: with the visitor `pdev[1].address = 0` on the pool
`nestedHubs`, whose entries 1 to 6 all have a non-zero address, the visitor is
called for the entries 1, 3 and 5 only; entry 2 has a non-zero address before
the traversal and gets no call. -/
theorem ForEachUsbDevice_visitor_clears_next :
    (ForEachUsbDevice nestedHubs (some clearNext)).1 = [1, 3, 5] ∧
      addrAt nestedHubs 2 ≠ 0 ∧ 1 ≤ 2 ∧ 2 < MAX_DEVICES_ALLOWED nestedHubs ∧
      ¬ (∀ i, i ∈ (ForEachUsbDevice nestedHubs (some clearNext)).1 ↔
        1 ≤ i ∧ i < MAX_DEVICES_ALLOWED nestedHubs ∧ addrAt nestedHubs i ≠ 0) := by
  have h : (ForEachUsbDevice nestedHubs (some clearNext)).1 = [1, 3, 5] := by decide
  refine ⟨h, by decide, by decide, by decide, ?_⟩
  intro hall
  have h2 := (hall 2).mpr ⟨by decide, by decide, by decide⟩
  rw [h] at h2
  exact absurd h2 (by decide)

/-- C12, amended: with a visitor `f`, `ForEachUsbDevice` goes through the
indices 1..capacity-1 in ascending order and calls the visitor, with the
pointer to the entry, once for each entry whose address is non-zero when the
loop reaches it, that is in the state left by the calls made for the lower
indices, and for no other entry (never for entry 0); the state it ends in is
the one these calls produce in turn. For a visitor that does not change the
address of an entry above the one it is given, the entries called are the
entries whose address is non-zero before the traversal. With a null visitor
it makes no call and leaves the state alone. -/
theorem ForEachUsbDevice_calls (p : AddressPoolImpl)
    (f : Nat → AddressPoolImpl → AddressPoolImpl) :
    (ForEachUsbDevice p (some f)).2 =
        (ForEachUsbDevice p (some f)).1.foldl (fun t i => f i t) p ∧
      (ForEachUsbDevice p (some f)).1.Pairwise (fun a b => a < b) ∧
      (∀ i ∈ (ForEachUsbDevice p (some f)).1, 1 ≤ i ∧ i < MAX_DEVICES_ALLOWED p) ∧
      (∀ i, 1 ≤ i → i < MAX_DEVICES_ALLOWED p →
        (i ∈ (ForEachUsbDevice p (some f)).1 ↔
          addrAt (((ForEachUsbDevice p (some f)).1.filter (fun j => decide (j < i))).foldl
            (fun t j => f j t) p) i ≠ 0)) ∧
      ((∀ i q j, i < j → addrAt (f i q) j = addrAt q j) →
        (ForEachUsbDevice p (some f)).1 =
            (List.range' 1 (MAX_DEVICES_ALLOWED p - 1)).filter
              (fun i => decide (addrAt p i ≠ 0)) ∧
          ∀ i, i ∈ (ForEachUsbDevice p (some f)).1 ↔
            1 ≤ i ∧ i < MAX_DEVICES_ALLOWED p ∧ addrAt p i ≠ 0) ∧
      ForEachUsbDevice p none = ([], p) := by
  obtain ⟨l, e, hp, hr, hm⟩ := ForEachUsbDevice_loop f (MAX_DEVICES_ALLOWED p - 1) 1 [] p
  have hrun : ForEachUsbDevice p (some f) = (l, l.foldl (fun t i => f i t) p) := by
    unfold ForEachUsbDevice
    simpa using e
  rw [hrun]
  refine ⟨rfl, hp, ?_, ?_, ?_, rfl⟩
  · intro i hi
    have := hr i hi
    omega
  · intro i h1 h2
    exact hm i h1 (by omega)
  · intro hf
    have hcalls : l = (List.range' 1 (MAX_DEVICES_ALLOWED p - 1)).filter
        (fun i => decide (addrAt p i ≠ 0)) := by
      have h := ForEachUsbDevice_loop_stable p f hf (MAX_DEVICES_ALLOWED p - 1) 1 [] p
        (fun _ _ => rfl)
      rw [e] at h
      simpa using h
    refine ⟨hcalls, ?_⟩
    intro i
    show i ∈ l ↔ _
    rw [hcalls, List.mem_filter, List.mem_range'_1]
    constructor
    · rintro ⟨⟨h1, h2⟩, h3⟩
      exact ⟨h1, by omega, by simpa using h3⟩
    · rintro ⟨h1, h2, h3⟩
      exact ⟨⟨h1, by omega⟩, by simpa using h3⟩

theorem markClass_keeps_addresses (i : Nat) (q : AddressPoolImpl) (j : Nat) :
    addrAt (markClass i q) j = addrAt q j := by
  unfold addrAt markClass
  rw [entryAt_set]
  split
  · rename_i h
    rw [← h.1]
  · rfl

theorem ForEachUsbDevice_calls_witness :
    (ForEachUsbDevice nestedHubsFreed (some markClass)).1 =
        (List.range' 1 (MAX_DEVICES_ALLOWED nestedHubsFreed - 1)).filter
          (fun i => decide (addrAt nestedHubsFreed i ≠ 0)) ∧
      ∀ i, i ∈ (ForEachUsbDevice nestedHubsFreed (some markClass)).1 ↔
        1 ≤ i ∧ i < MAX_DEVICES_ALLOWED nestedHubsFreed ∧ addrAt nestedHubsFreed i ≠ 0 :=
  (ForEachUsbDevice_calls nestedHubsFreed markClass).2.2.2.2.1
    (fun i q j _ => markClass_keeps_addresses i q j)

/-! ## The hub counter -/

theorem FindChildIndex_absent (p : AddressPoolImpl) (a start : Nat)
    (h : ∀ j, 1 ≤ j → j < MAX_DEVICES_ALLOWED p → bmParent (addrAt p j) ≠ bmAddress a) :
    FindChildIndex p a start = 0 := by
  unfold FindChildIndex
  have hf : 1 ≤ (if start < 1 ∨ start ≥ MAX_DEVICES_ALLOWED p then 1 else start) := by
    split <;> omega
  apply firstIndex_absent
  intro j h1 h2
  simpa using h j (by omega) (by omega)

/-- `FreeAddress` on a hub entry `k` that has no child: the loop ends at once,
the counter statement runs and the entry is initialised. -/
theorem FreeAddress_childless (fuel : Nat) (p : AddressPoolImpl) (h k : Nat)
    (hhub : bmHub h = 1) (hroot : h ≠ 0x41)
    (hk1 : 1 ≤ k) (hk2 : k < MAX_DEVICES_ALLOWED p) (hk3 : addrAt p k = h)
    (hlow : ∀ j, 1 ≤ j → j < k → addrAt p j ≠ h)
    (hnone : ∀ j, 1 ≤ j → j < MAX_DEVICES_ALLOWED p →
      bmParent (addrAt p j) ≠ bmAddress h) :
    FreeAddress (fuel + 2) p h = some (InitEntry (decHubCounter p k) k) := by
  have hidx : FindAddressIndex p h = k := FindAddressIndex_found p h k hk1 hk2 hk3 hlow
  have hchild : FindChildIndex p (addrAt p k) 1 = 0 :=
    FindChildIndex_absent p _ 1 (by rw [hk3]; exact hnone)
  unfold FreeAddress
  rw [if_neg hroot, hidx]
  unfold FreeAddressByIndex
  rw [if_neg (by omega), if_pos (by rw [hk3]; exact hhub)]
  unfold freeChildren
  simp only [hchild, if_true]

/-- C14, as stated, fails: in the pool `hubWithLocalZero` the hub 0x48 (local
address 0) has no child and its local address equals `hubCounter`, which is 0;
`FreeAddress(0x48)` leaves `hubCounter` at 255, not at one less. -/
theorem FreeAddress_counter_wraps :
    bmHub 0x48 = 1 ∧ addrAt hubWithLocalZero 1 = 0x48 ∧
      (∀ j, 1 ≤ j → j < MAX_DEVICES_ALLOWED hubWithLocalZero →
        bmParent (addrAt hubWithLocalZero j) ≠ bmAddress 0x48) ∧
      bmAddress 0x48 = hubWithLocalZero.hubCounter ∧
      ∃ q, FreeAddress 2 hubWithLocalZero 0x48 = some q ∧ q.hubCounter = 255 ∧
        ¬ (q.hubCounter + 1 = hubWithLocalZero.hubCounter) := by
  refine ⟨by decide, by decide, ?_, by decide, ?_⟩
  · intro j h1 h2
    have h3 : MAX_DEVICES_ALLOWED hubWithLocalZero = 2 := by decide
    have : j = 1 := by omega
    subst this; decide
  · exact ⟨⟨⟨0, 0, 8, 0, 0x40, 0x10⟩, 255, [freeEntry, freeEntry]⟩, by decide, by decide,
      by decide⟩

/-- C14, amended: let `h` be a hub address other than 0x41, `k` the lowest index
from 1 on whose entry holds `h`, and let no entry from index 1 on have a
parent field equal to the local address of `h`. `FreeAddress(h)` returns. When
the local address of `h` differs from `hubCounter`, the counter is unchanged.
When it equals `hubCounter` and the counter is at least 1, the counter goes
down by exactly one, and a hub request below a non-zero parent that passes the
range guard and finds a free entry while the counter still has that value is
given the local address of `h` again. -/
theorem FreeAddress_childless_hub (fuel : Nat) (p : AddressPoolImpl) (h k : Nat)
    (hhub : bmHub h = 1) (hroot : h ≠ 0x41)
    (hk1 : 1 ≤ k) (hk2 : k < MAX_DEVICES_ALLOWED p) (hk3 : addrAt p k = h)
    (hlow : ∀ j, 1 ≤ j → j < k → addrAt p j ≠ h)
    (hnone : ∀ j, 1 ≤ j → j < MAX_DEVICES_ALLOWED p →
      bmParent (addrAt p j) ≠ bmAddress h) :
    ∃ q, FreeAddress (fuel + 2) p h = some q ∧
      (bmAddress h ≠ p.hubCounter → q.hubCounter = p.hubCounter) ∧
      (bmAddress h = p.hubCounter → 1 ≤ p.hubCounter →
        q.hubCounter + 1 = p.hubCounter ∧
        ∀ t parent port raw, t.hubCounter = q.hubCounter →
          1 ≤ parent → parent ≤ 127 → port ≤ 7 →
          (∃ j, 1 ≤ j ∧ j < MAX_DEVICES_ALLOWED t ∧ addrAt t j = 0) →
          bmHub (AllocAddress t parent true port raw).1 = 1 ∧
            bmAddress (AllocAddress t parent true port raw).1 = bmAddress h) := by
  refine ⟨_, FreeAddress_childless fuel p h k hhub hroot hk1 hk2 hk3 hlow hnone, ?_, ?_⟩
  · intro hne
    rw [hubCounter_InitEntry]
    unfold decHubCounter
    rw [hk3, if_neg (fun e => hne e.symm)]
  · intro heq hpos
    have hc : (InitEntry (decHubCounter p k) k).hubCounter = (p.hubCounter + 255) % 256 := by
      rw [hubCounter_InitEntry]
      unfold decHubCounter
      rw [hk3, if_pos heq.symm]
    have hle : p.hubCounter ≤ 7 := by
      rw [← heq]; unfold bmAddress; omega
    refine ⟨by rw [hc]; omega, ?_⟩
    intro t parent port raw ht hp1 hp2 hport hfree
    have hi : FindAddressIndex t 0 ≠ 0 := (FindAddressIndex_ne_zero_iff t 0).mpr hfree
    have hg : ¬ (parent > 127 ∨ port > 7) := by omega
    rw [AllocAddress_value t parent true port raw hg hi]
    unfold allocByte
    rw [if_neg (by omega), if_pos rfl, bmHub_devAddress, bmAddress_devAddress, ht, hc, ← heq]
    refine ⟨rfl, ?_⟩
    rw [← heq] at hpos hle
    omega

theorem FreeAddress_childless_hub_witness :
    ∃ q, FreeAddress (0 + 2) threeHubs 0x63 = some q ∧
      (bmAddress 0x63 ≠ threeHubs.hubCounter → q.hubCounter = threeHubs.hubCounter) ∧
      (bmAddress 0x63 = threeHubs.hubCounter → 1 ≤ threeHubs.hubCounter →
        q.hubCounter + 1 = threeHubs.hubCounter ∧
        ∀ t parent port raw, t.hubCounter = q.hubCounter →
          1 ≤ parent → parent ≤ 127 → port ≤ 7 →
          (∃ j, 1 ≤ j ∧ j < MAX_DEVICES_ALLOWED t ∧ addrAt t j = 0) →
          bmHub (AllocAddress t parent true port raw).1 = 1 ∧
            bmAddress (AllocAddress t parent true port raw).1 = bmAddress 0x63) :=
  have hmax : MAX_DEVICES_ALLOWED threeHubs = 5 := by decide
  FreeAddress_childless_hub 0 threeHubs 0x63 3 (by decide) (by decide) (by decide)
    (by decide) (by decide)
    (fun j h1 h2 => by
      have : j = 1 ∨ j = 2 := by omega
      rcases this with h | h <;> subst h <;> decide)
    (fun j h1 h2 => by
      have : j = 1 ∨ j = 2 ∨ j = 3 ∨ j = 4 := by omega
      rcases this with h | h | h | h <;> subst h <;> decide)

theorem Reachable_allocSeq (p : AddressPoolImpl) (hp : Reachable p) (reqs : List Request)
    (h : ∀ r ∈ reqs, r.parent < 256 ∧ r.port < 256 ∧ r.raw < 256) :
    Reachable (allocSeq p reqs).2 := by
  induction reqs generalizing p with
  | nil => exact hp
  | cons r rs ih =>
    obtain ⟨h1, h2, h3⟩ := h r (List.mem_cons_self _ _)
    exact ih _ (Reachable.alloc p r.parent r.is_hub r.port r.raw hp h1 h2 h3)
      (fun x hx => h x (List.mem_cons_of_mem _ hx))

theorem Reachable_freshPool (n : Nat) (h1 : 1 ≤ n) (h2 : n ≤ 255) : Reachable (freshPool n) :=
  Reachable.construct 0x40 0x10 (rawPool n)
    (by simpa [MAX_DEVICES_ALLOWED, rawPool] using h1)
    (by simpa [MAX_DEVICES_ALLOWED, rawPool] using h2)

/-- C15: after `AllocAddress(0, true, 0)` on a fresh pool of three entries the
call has returned 0x41 and entry 1 holds a hub address, but `GetNumHubs()`
is 0: it is below the number of entries that hold a hub address. -/
theorem GetNumHubs_misses_root_hub :
    Reachable rootHubOnly ∧ (allocSeq (freshPool 3) [⟨0, true, 0, 0⟩]).1 = [0x41] ∧
      bmHub (addrAt rootHubOnly 1) = 1 ∧ attachedHubs rootHubOnly = 1 ∧
      GetNumHubs rootHubOnly = 0 := by
  refine ⟨?_, by decide, by decide, by decide, by decide⟩
  exact Reachable_allocSeq _ (Reachable_freshPool 3 (by decide) (by decide)) _ (by decide)

/-- C16: after the root hub (0x41) and a hub below it (0x49) were attached to a
fresh pool of three entries, entries 1 and 2 both hold a hub address with
local address 1. -/
theorem hub_local_address_duplicated :
    Reachable hubBelowRootHub ∧
      addrAt hubBelowRootHub 1 = 0x41 ∧ addrAt hubBelowRootHub 2 = 0x49 ∧
      bmHub (addrAt hubBelowRootHub 1) = 1 ∧ bmHub (addrAt hubBelowRootHub 2) = 1 ∧
      bmAddress (addrAt hubBelowRootHub 1) = bmAddress (addrAt hubBelowRootHub 2) := by
  refine ⟨?_, by decide, by decide, by decide, by decide, by decide⟩
  exact Reachable_allocSeq _ (Reachable_freshPool 3 (by decide) (by decide)) _ (by decide)

/-- C17: after the root hub and eight hubs below it were attached to a fresh
pool of ten entries, `hubCounter` is 8, and the eighth of these hubs was given
the address 0x48, whose local address is 0 and not 8. -/
theorem hubCounter_exceeds_seven :
    Reachable eightHubsBelowRootHub.2 ∧
      eightHubsBelowRootHub.1 = [0x41, 0x49, 0x4A, 0x4B, 0x4C, 0x4D, 0x4E, 0x4F, 0x48] ∧
      eightHubsBelowRootHub.2.hubCounter = 8 ∧ bmAddress 0x48 = 0 := by
  refine ⟨?_, by decide, by decide, by decide⟩
  exact Reachable_allocSeq _ (Reachable_freshPool 10 (by decide) (by decide)) _ (by decide)

end UsbHost
